import Mathlib

/-!
Shallow embedding of the credential-validation and mail-forwarding core of
`src/discord_bot.py` (class `EmailManager`), together with theorems settling
the specification claims about it.

Strings are manipulated through their underlying character lists so that all
definitions reduce in the kernel; `strLower`, `strContains` and `splitChar`
model Python's `str.lower()`, the `in` substring test and `str.split(c)`.
-/

/-- ASCII lowercase of one character, as Python's `str.lower()` acts on the
ASCII range used by the program's marker strings. -/
def lowerChar (c : Char) : Char :=
  if 65 ≤ c.toNat ∧ c.toNat ≤ 90 then Char.ofNat (c.toNat + 32) else c

/-- Model of Python's `s.lower()`. -/
def strLower (s : String) : String := ⟨s.data.map lowerChar⟩

/-- Characterwise prefix test on character lists. -/
def listStartsWith : List Char → List Char → Bool
  | [], _ => true
  | _ :: _, [] => false
  | n :: ns, h :: hs => n = h && listStartsWith ns hs

/-- Substring containment on character lists. -/
def listContainsSub (needle : List Char) : List Char → Bool
  | [] => listStartsWith needle []
  | h :: t => listStartsWith needle (h :: t) || listContainsSub needle t

/-- Model of Python's substring test `needle in hay`. -/
def strContains (hay needle : String) : Bool := listContainsSub needle.data hay.data

/-- Model of Python's `s.split(c)` on a single separator character. -/
def splitChar (c : Char) : List Char → List (List Char)
  | [] => [[]]
  | x :: xs =>
    if x = c then [] :: splitChar c xs
    else
      match splitChar c xs with
      | h :: t => (x :: h) :: t
      | [] => [[x]]

/-- Piece of index 1 of `email_addr.split('@')`, as a string; the program only
ever applies this to addresses containing `'@'`, where Python's indexing is
total. -/
def emailDomainRaw (emailAddr : String) : String :=
  ⟨(splitChar '@' emailAddr.data).getD 1 []⟩

/-- Model of `email_addr.split('@')[1].lower()` from `get_imap_settings`. -/
def emailDomain (emailAddr : String) : String := strLower (emailDomainRaw emailAddr)

/-- Static known-provider table of `EmailManager.get_imap_settings`, keyed by
registered domain (the Python dict `imap_settings`). -/
def imap_settings_table : List (String × String × Nat) :=
  [ ("gmail.com", "imap.gmail.com", 993),
    ("googlemail.com", "imap.gmail.com", 993),
    ("yahoo.com", "imap.mail.yahoo.com", 993),
    ("yahoo.co.uk", "imap.mail.yahoo.com", 993),
    ("yahoo.fr", "imap.mail.yahoo.com", 993),
    ("yahoo.de", "imap.mail.yahoo.com", 993),
    ("yahoo.it", "imap.mail.yahoo.com", 993),
    ("yahoo.es", "imap.mail.yahoo.com", 993),
    ("yahoo.com.br", "imap.mail.yahoo.com", 993),
    ("yahoo.com.au", "imap.mail.yahoo.com", 993),
    ("yahoo.ca", "imap.mail.yahoo.com", 993),
    ("yahoo.co.jp", "imap.mail.yahoo.co.jp", 993),
    ("ymail.com", "imap.mail.yahoo.com", 993),
    ("rocketmail.com", "imap.mail.yahoo.com", 993),
    ("aol.com", "imap.aol.com", 993),
    ("aim.com", "imap.aol.com", 993),
    ("icloud.com", "imap.mail.me.com", 993),
    ("me.com", "imap.mail.me.com", 993),
    ("mac.com", "imap.mail.me.com", 993),
    ("yandex.com", "imap.yandex.com", 993),
    ("yandex.ru", "imap.yandex.ru", 993),
    ("ya.ru", "imap.yandex.ru", 993),
    ("mail.ru", "imap.mail.ru", 993),
    ("inbox.ru", "imap.mail.ru", 993),
    ("list.ru", "imap.mail.ru", 993),
    ("bk.ru", "imap.mail.ru", 993),
    ("t-online.de", "secureimap.t-online.de", 993),
    ("web.de", "imap.web.de", 993),
    ("gmx.de", "imap.gmx.net", 993),
    ("gmx.net", "imap.gmx.net", 993),
    ("gmx.com", "imap.gmx.com", 993),
    ("1und1.de", "imap.1und1.de", 993),
    ("1and1.com", "imap.1and1.com", 993),
    ("freenet.de", "mx.freenet.de", 993),
    ("libero.it", "imapmail.libero.it", 993),
    ("virgilio.it", "in.virgilio.it", 143),
    ("alice.it", "in.alice.it", 143),
    ("tin.it", "in.alice.it", 143),
    ("fastweb.it", "imap.fastwebnet.it", 993),
    ("fastwebnet.it", "imap.fastwebnet.it", 993),
    ("orange.fr", "imap.orange.fr", 993),
    ("wanadoo.fr", "imap.orange.fr", 993),
    ("free.fr", "imap.free.fr", 993),
    ("laposte.net", "imap.laposte.net", 993),
    ("sfr.fr", "imap.sfr.fr", 993),
    ("protonmail.com", "127.0.0.1", 1143),
    ("tutanota.com", "mail.tutanota.com", 993),
    ("zoho.com", "imap.zoho.com", 993),
    ("fastmail.com", "imap.fastmail.com", 993),
    ("sina.com", "imap.sina.com", 993),
    ("rediffmail.com", "imap.rediffmail.com", 993) ]

/-- Model of `EmailManager.get_imap_settings`: table lookup on the lowercased
registered domain, defaulting to `('imap.' + domain, 993)`. -/
def get_imap_settings (emailAddr : String) : String × Nat :=
  let domain := emailDomain emailAddr
  (List.lookup domain imap_settings_table).getD ("imap." ++ domain, 993)

/-- Candidate endpoint list built at the top of
`EmailManager.test_email_connection` (the `fallback_servers` local): the
account's stored `(imap_server, imap_port)` first, then `(imap_server, 143)`,
then generic guesses on the raw (non-lowercased) domain of the address. -/
def fallback_servers (imapServer : String) (imapPort : Nat) (emailAddr : String) :
    List (String × Nat) :=
  [ (imapServer, imapPort),
    (imapServer, 143),
    ("imap." ++ emailDomainRaw emailAddr, 993),
    ("mail." ++ emailDomainRaw emailAddr, 993),
    ("imap." ++ emailDomainRaw emailAddr, 143),
    ("mail." ++ emailDomainRaw emailAddr, 143) ]

/-- Duplicate removal keeping the first occurrence of each endpoint, used by
the spec-side resolver description. -/
def dedupKeepFirst (seen : List (String × Nat)) : List (String × Nat) → List (String × Nat)
  | [] => []
  | x :: xs =>
    if x ∈ seen then dedupKeepFirst seen xs else x :: dedupKeepFirst (x :: seen) xs

/-- Candidate endpoint list as the specification's §4.1 words describe it:
the known-provider mapping first when the registered domain is in the static
table, then the four generic fallbacks, deduplicated keeping first
occurrences. Written from the spec for comparison with `fallback_servers`. -/
def resolver_spec_candidates (emailAddr : String) : List (String × Nat) :=
  let d := emailDomain emailAddr
  let generic : List (String × Nat) :=
    [("imap." ++ d, 993), ("mail." ++ d, 993), ("imap." ++ d, 143), ("mail." ++ d, 143)]
  let raw :=
    match List.lookup d imap_settings_table with
    | some hp => hp :: generic
    | none => generic
  dedupKeepFirst [] raw

/-- Outcome of one connect/login/select/count attempt against one endpoint, as
seen by `test_email_connection`'s `try`/`except` arms: a success with a message
count, an `imaplib.IMAP4.error`, an `ssl.SSLError`, or any other exception;
errors carry `str(e)`. -/
inductive ProbeResult where
  | ok (count : Nat)
  | imapErr (msg : String)
  | sslErr
  | otherErr (msg : String)
deriving DecidableEq

/-- A network environment: what one probe against a given (host, port) yields. -/
def ProbeWorld := String → Nat → ProbeResult

/-- Final `(success, email_count, message)` triple of
`test_email_connection` (the account id and address components of the Python
return tuple are just echoed inputs and are omitted). -/
structure TestResult where
  success : Bool
  count : Nat
  message : String
deriving DecidableEq

/-- Two-factor marker keywords of `test_email_connection`'s classifier. -/
def twofa_keywords : List String := ["two-factor", "2fa", "verification", "app password"]

/-- Candidate loop of `EmailManager.test_email_connection`: try each
`(server, port)` in order; on success return `Connected via server:port`; on an
IMAP protocol error classify by the lowercased error text (auth markers with a
two-factor keyword → `2FA_REQUIRED`, auth markers alone → invalid credentials,
rate-limit marker → rate limited, anything else → next candidate); on a TLS
error try the next candidate; on any other exception try the next candidate
when the text shows unknown-host/connection-refused, otherwise return
`Connection error: <detail>`; an exhausted list yields
`All connection attempts failed`. -/
def testLoop (world : ProbeWorld) : List (String × Nat) → TestResult
  | [] => ⟨false, 0, "All connection attempts failed"⟩
  | (server, port) :: rest =>
    match world server port with
    | .ok n => ⟨true, n, "Connected via " ++ server ++ ":" ++ toString port⟩
    | .imapErr m =>
      let e := strLower m
      if strContains e "authentication failed" || strContains e "login failed" then
        if twofa_keywords.any (fun kw => strContains e kw) then
          ⟨false, 0, "2FA_REQUIRED"⟩
        else
          ⟨false, 0, "Authentication failed - Invalid credentials"⟩
      else if strContains e "too many simultaneous connections" then
        ⟨false, 0, "Too many connections - Rate limited"⟩
      else
        testLoop world rest
    | .sslErr => testLoop world rest
    | .otherErr m =>
      let e := strLower m
      if strContains e "name or service not known" || strContains e "connection refused" then
        testLoop world rest
      else
        ⟨false, 0, "Connection error: " ++ m⟩

/-- Endpoints the candidate loop actually probes: the prefix of the list
consumed before `testLoop` returns. -/
def triedServers (world : ProbeWorld) : List (String × Nat) → List (String × Nat)
  | [] => []
  | (server, port) :: rest =>
    let continue_ := (server, port) :: triedServers world rest
    match world server port with
    | .ok _ => [(server, port)]
    | .imapErr m =>
      let e := strLower m
      if strContains e "authentication failed" || strContains e "login failed" then
        [(server, port)]
      else if strContains e "too many simultaneous connections" then
        [(server, port)]
      else
        continue_
    | .sslErr => continue_
    | .otherErr m =>
      let e := strLower m
      if strContains e "name or service not known" || strContains e "connection refused" then
        continue_
      else
        [(server, port)]

/-- Model of `EmailManager.test_email_connection` on one account record
`(email, password, imap_server, imap_port)`: run the candidate loop on the
fallback list (the credential itself is folded into `world`; the sticky
endpoint update only rewrites the accounts table and not the returned triple). -/
def test_email_connection (world : ProbeWorld) (emailAddr : String)
    (imapServer : String) (imapPort : Nat) : TestResult :=
  testLoop world (fallback_servers imapServer imapPort emailAddr)

/-- The claim as stated is false at a concrete server reply: an IMAP error
reading "authentication failed, please use an app-specific password" carries
an authentication-failure marker and an app-password phrasing, yet the
classifier returns the invalid-credentials outcome, not `2FA_REQUIRED`,
because none of the four two-factor keywords is a substring of the text. -/
theorem C1_counterexample :
    (test_email_connection
        (fun _ _ => .imapErr "authentication failed, please use an app-specific password")
        "a@example.com" "imap.example.com" 993).message
      = "Authentication failed - Invalid credentials"
    ∧ (test_email_connection
        (fun _ _ => .imapErr "authentication failed, please use an app-specific password")
        "a@example.com" "imap.example.com" 993).message
      ≠ "2FA_REQUIRED" := by
  constructor
  · rfl
  · intro h
    simp only [test_email_connection] at h
    revert h
    decide

/-- Amended claim: when the first candidate's probe raises an IMAP protocol
error whose lowercased text contains an authentication-failure marker
(`authentication failed` or `login failed`) together with one of the
classifier's two-factor keywords (`two-factor`, `2fa`, `verification`,
`app password`), the probe returns `2FA_REQUIRED`; the text
"authentication failed, please use an app-specific password" matches none of
those keywords and yields invalid credentials instead. -/
theorem C1_amended (world : ProbeWorld) (server : String) (port : Nat)
    (rest : List (String × Nat)) (m : String)
    (hw : world server port = .imapErr m)
    (hauth : strContains (strLower m) "authentication failed" = true
      ∨ strContains (strLower m) "login failed" = true)
    (h2fa : ∃ kw ∈ twofa_keywords, strContains (strLower m) kw = true) :
    testLoop world ((server, port) :: rest) = ⟨false, 0, "2FA_REQUIRED"⟩ := by
  obtain ⟨kw, hkw, hc⟩ := h2fa
  have hany : twofa_keywords.any (fun kw => strContains (strLower m) kw) = true :=
    List.any_eq_true.mpr ⟨kw, hkw, hc⟩
  have hor : (strContains (strLower m) "authentication failed"
      || strContains (strLower m) "login failed") = true := by
    rcases hauth with h | h <;> simp [h]
  simp [testLoop, hw, hor, hany]

/-- Witness instantiating `C1_amended` at a reply that does contain the
`app password` keyword. -/
theorem C1_amended_witness :
    testLoop (fun _ _ => .imapErr "Authentication failed: use an app password")
      [("imap.example.com", 993)] = ⟨false, 0, "2FA_REQUIRED"⟩ :=
  C1_amended (fun _ _ => .imapErr "Authentication failed: use an app password")
    "imap.example.com" 993 [] "Authentication failed: use an app password"
    rfl (Or.inl (by decide)) ⟨"app password", by decide, by decide⟩

/-- Helper: a successful association-list lookup names a pair of the list. -/
theorem lookup_mem_of_eq_some {α β : Type} [BEq α] [LawfulBEq α]
    (l : List (α × β)) (a : α) (b : β) (h : List.lookup a l = some b) : (a, b) ∈ l := by
  induction l with
  | nil => simp [List.lookup] at h
  | cons hd tl ih =>
    obtain ⟨k, v⟩ := hd
    by_cases hk : a == k
    · simp only [List.lookup, hk] at h
      have hak : a = k := eq_of_beq hk
      cases h
      simp [hak]
    · simp only [List.lookup, hk] at h
      exact List.mem_cons_of_mem _ (ih h)

/-- The claim as stated is false at a concrete probe: against a server whose
first candidate endpoint raises an IMAP protocol error `select command failed`
(matching none of the authentication, rate-limit, or unreachable markers), the
engine does not stop with a `TransportError`; it keeps trying further
candidates and even succeeds on a later one, so such a protocol error is not
terminal for the account. -/
theorem C2_counterexample :
    (test_email_connection
        (fun s _ => if s = "imap.example.com" then .imapErr "select command failed" else .ok 3)
        "a@example.com" "imap.example.com" 993).success = true
    ∧ (test_email_connection
        (fun s _ => if s = "imap.example.com" then .imapErr "select command failed" else .ok 3)
        "a@example.com" "imap.example.com" 993).message
      = "Connected via mail.example.com:993"
    ∧ (triedServers
        (fun s _ => if s = "imap.example.com" then .imapErr "select command failed" else .ok 3)
        (fallback_servers "imap.example.com" 993 "a@example.com")).length = 4 := by
  refine ⟨rfl, rfl, rfl⟩

/-- Amended claim: when a probe attempt fails with a generic exception — one
that is neither an IMAP protocol error nor a TLS-layer failure — whose text
contains neither the unknown-host nor the connection-refused marker, the
classifier returns `Connection error: <detail>` and the engine tries no
further candidate endpoints for that account; an IMAP protocol error matching
neither the authentication nor the rate-limit markers instead makes the engine
move on to the next candidate. -/
theorem C2_amended (world : ProbeWorld) (server : String) (port : Nat)
    (rest : List (String × Nat)) (m : String)
    (hw : world server port = .otherErr m)
    (h1 : strContains (strLower m) "name or service not known" = false)
    (h2 : strContains (strLower m) "connection refused" = false) :
    testLoop world ((server, port) :: rest) = ⟨false, 0, "Connection error: " ++ m⟩
    ∧ triedServers world ((server, port) :: rest) = [(server, port)] := by
  constructor
  · simp [testLoop, hw, h1, h2]
  · simp [triedServers, hw, h1, h2]

/-- Witness instantiating `C2_amended` at a concrete generic failure with a
second candidate available that is never probed. -/
theorem C2_amended_witness :
    testLoop (fun _ _ => .otherErr "unexpected socket breakdown")
        [("imap.example.com", 993), ("mail.example.com", 993)]
      = ⟨false, 0, "Connection error: unexpected socket breakdown"⟩
    ∧ triedServers (fun _ _ => .otherErr "unexpected socket breakdown")
        [("imap.example.com", 993), ("mail.example.com", 993)]
      = [("imap.example.com", 993)] :=
  C2_amended (fun _ _ => .otherErr "unexpected socket breakdown")
    "imap.example.com" 993 [("mail.example.com", 993)] "unexpected socket breakdown"
    rfl (by decide) (by decide)

/-- The claim as stated is false at a concrete address: for `a@example.com`
(a domain outside the static table) the candidate list the engine actually
tries is not the deduplicated four-element list the spec describes — it has
six entries, contains duplicates, and includes the extra `(known_host, 143)`
candidate. -/
theorem C3_counterexample :
    fallback_servers (get_imap_settings "a@example.com").1
        (get_imap_settings "a@example.com").2 "a@example.com"
      ≠ resolver_spec_candidates "a@example.com"
    ∧ ¬ (fallback_servers (get_imap_settings "a@example.com").1
        (get_imap_settings "a@example.com").2 "a@example.com").Nodup := by
  constructor
  · intro h
    revert h
    decide
  · decide

/-- Amended claim: for every email address, the candidate list tried by the
engine is exactly the six entries — the account's stored known-provider
mapping `(host, port)` first, then `(host, 143)`, then `imap.<domain>:993`,
`mail.<domain>:993`, `imap.<domain>:143`, `mail.<domain>:143` — in that order
and without deduplication, where `(host, port)` is the static table's entry
for the lowercased registered domain when present and `(imap.<domain>, 993)`
otherwise. -/
theorem C3_amended (e : String) :
    fallback_servers (get_imap_settings e).1 (get_imap_settings e).2 e =
      (get_imap_settings e) :: ((get_imap_settings e).1, 143) ::
        [("imap." ++ emailDomainRaw e, 993), ("mail." ++ emailDomainRaw e, 993),
         ("imap." ++ emailDomainRaw e, 143), ("mail." ++ emailDomainRaw e, 143)]
    ∧ ((emailDomain e, get_imap_settings e) ∈ imap_settings_table
        ∨ get_imap_settings e = ("imap." ++ emailDomain e, 993)) := by
  constructor
  · rfl
  · cases hl : List.lookup (emailDomain e) imap_settings_table with
    | none => right; simp [get_imap_settings, hl]
    | some hp =>
      left
      have : get_imap_settings e = hp := by simp [get_imap_settings, hl]
      rw [this]
      exact lookup_mem_of_eq_some _ _ _ hl

/-- One stored row of the `emails` table from `init_database`; columns no
claim consults (recipient, timestamps, bodies, attachments, folder, read
flag) are omitted. -/
structure EmailRow where
  id : Nat
  accountId : Nat
  userId : Nat
  messageId : String
  subject : String
  sender : String
  senderName : String
  forwarded : Bool
deriving DecidableEq

/-- The `emails` table contents plus the `AUTOINCREMENT` cursor assigning the
next row id (`cursor.lastrowid`). -/
structure EmailStore where
  rows : List EmailRow
  nextId : Nat
deriving DecidableEq

/-- Row match on the natural key `(account_id, message_id)`. -/
def sameKey (aid : Nat) (mid : String) (r : EmailRow) : Bool :=
  r.accountId == aid && r.messageId == mid

/-- Number of rows carrying a given `(account_id, message_id)` key. -/
def countKey (st : EmailStore) (aid : Nat) (mid : String) : Nat :=
  (st.rows.filter (sameKey aid mid)).length

/-- Model of `INSERT INTO emails ...` under the schema constraint
`UNIQUE(account_id, message_id)` declared in `init_database`: the insert is
refused (SQLite raises `IntegrityError`) when a row with the same key already
exists, whether or not the caller performed an application-level existence
check first. On success the row is appended with `forwarded` at its schema
default `0` and the fresh row id is returned. -/
def insertEmail (st : EmailStore) (aid uid : Nat) (mid subject sender senderName : String) :
    Except Unit (EmailStore × Nat) :=
  if st.rows.any (sameKey aid mid) then .error ()
  else .ok (⟨st.rows ++ [⟨st.nextId, aid, uid, mid, subject, sender, senderName, false⟩],
      st.nextId + 1⟩, st.nextId)

/-- Parsed fields of one mailbox message as `check_account_for_new_emails_sync`
extracts them (message id defaulting to the sequence number, decoded subject,
parsed sender address and display name). -/
structure MailMsg where
  messageId : String
  subject : String
  sender : String
  senderName : String
deriving DecidableEq

/-- The `email_data` dictionary built for each newly stored message and handed
to the forwarding path. -/
structure EmailData where
  id : Nat
  accountEmail : String
  sender : String
  senderName : String
  subject : String
  userId : Nat
deriving DecidableEq

/-- Python's `l[-10:]`: the most recent ten matches inspected by the fetcher. -/
def lastTen {α : Type} (l : List α) : List α := l.drop (l.length - 10)

/-- Per-message loop of `check_account_for_new_emails_sync`: for each message,
skip it when a row with its `(account_id, message_id)` key already exists
(the `SELECT COUNT(*)` existence check); otherwise insert it into the store
and emit its `email_data` record. A refused insert is absorbed by the
per-message `try`/`except`, which skips just that message. -/
def fetchFold (aid uid : Nat) (accountEmail : String) :
    List MailMsg → EmailStore → List EmailData × EmailStore
  | [], st => ([], st)
  | m :: rest, st =>
    if st.rows.any (sameKey aid m.messageId) then
      fetchFold aid uid accountEmail rest st
    else
      match insertEmail st aid uid m.messageId m.subject m.sender m.senderName with
      | .error _ => fetchFold aid uid accountEmail rest st
      | .ok (st', rowId) =>
        let r := fetchFold aid uid accountEmail rest st'
        (⟨rowId, accountEmail, m.sender, m.senderName, m.subject, uid⟩ :: r.1, r.2)

/-- Model of `EmailManager.check_account_for_new_emails_sync`: inspect the most
recent ten mailbox messages, ingest the unseen ones, and return the count of
new messages, their `email_data` records, and the updated store. -/
def check_account_for_new_emails_sync (aid uid : Nat) (accountEmail : String)
    (mailbox : List MailMsg) (st : EmailStore) : Nat × List EmailData × EmailStore :=
  let r := fetchFold aid uid accountEmail (lastTen mailbox) st
  (r.1.length, r.1, r.2)

/-- Store rows only accumulate across a fetch: the result rows are the input
rows followed by fresh rows, each carrying an id at least the input cursor,
the `forwarded` default `false`, and the fetched account's id. -/
theorem fetchFold_rows (aid uid : Nat) (ae : String) (msgs : List MailMsg) (st : EmailStore) :
    ∃ new, (fetchFold aid uid ae msgs st).2.rows = st.rows ++ new
      ∧ ∀ r ∈ new, st.nextId ≤ r.id ∧ r.forwarded = false ∧ r.accountId = aid := by
  induction msgs generalizing st with
  | nil => exact ⟨[], by simp [fetchFold]⟩
  | cons m rest ih =>
    by_cases hmem : st.rows.any (sameKey aid m.messageId)
    · simpa [fetchFold, hmem] using ih st
    · obtain ⟨new, hrows, hprops⟩ :=
        ih ⟨st.rows ++ [⟨st.nextId, aid, uid, m.messageId, m.subject, m.sender,
          m.senderName, false⟩], st.nextId + 1⟩
      refine ⟨⟨st.nextId, aid, uid, m.messageId, m.subject, m.sender,
          m.senderName, false⟩ :: new, ?_, ?_⟩
      · simp only [fetchFold, hmem, if_neg, insertEmail, Bool.false_eq_true] at *
        simp only [if_neg hmem] at *
        simpa using hrows
      · intro r hr
        rcases List.mem_cons.mp hr with h | h
        · subst h; exact ⟨Nat.le_refl _, rfl, rfl⟩
        · obtain ⟨h1, h2, h3⟩ := hprops r h
          exact ⟨Nat.le_of_succ_le h1, h2, h3⟩

/-- The id cursor never moves backwards across a fetch. -/
theorem fetchFold_nextId (aid uid : Nat) (ae : String) (msgs : List MailMsg) (st : EmailStore) :
    st.nextId ≤ (fetchFold aid uid ae msgs st).2.nextId := by
  induction msgs generalizing st with
  | nil => exact Nat.le_refl _
  | cons m rest ih =>
    by_cases hmem : st.rows.any (sameKey aid m.messageId)
    · simpa [fetchFold, hmem] using ih st
    · simp only [fetchFold, if_neg hmem, insertEmail]
      exact Nat.le_trans (Nat.le_succ _)
        (ih ⟨st.rows ++ [⟨st.nextId, aid, uid, m.messageId, m.subject, m.sender,
          m.senderName, false⟩], st.nextId + 1⟩)

/-- A key present before a fetch is still present afterwards. -/
theorem fetchFold_key_mono (aid uid : Nat) (ae : String) (msgs : List MailMsg)
    (st : EmailStore) (a : Nat) (mid : String)
    (h : st.rows.any (sameKey a mid) = true) :
    (fetchFold aid uid ae msgs st).2.rows.any (sameKey a mid) = true := by
  obtain ⟨new, hr, _⟩ := fetchFold_rows aid uid ae msgs st
  rw [hr, List.any_append, h, Bool.true_or]

/-- Every inspected message's key is present in the store after the fetch,
whether it was already there or was just ingested. -/
theorem fetchFold_key_present (aid uid : Nat) (ae : String) (msgs : List MailMsg)
    (st : EmailStore) (m : MailMsg) (hm : m ∈ msgs) :
    (fetchFold aid uid ae msgs st).2.rows.any (sameKey aid m.messageId) = true := by
  induction msgs generalizing st with
  | nil => cases hm
  | cons m2 rest ih =>
    by_cases hmem : st.rows.any (sameKey aid m2.messageId) = true
    · rcases List.mem_cons.mp hm with h | h
      · subst h
        simpa [fetchFold, hmem] using fetchFold_key_mono aid uid ae rest st aid m.messageId hmem
      · simpa [fetchFold, hmem] using ih st h
    · have hmem' : st.rows.any (sameKey aid m2.messageId) = false :=
        Bool.eq_false_iff.mpr hmem
      rcases List.mem_cons.mp hm with h | h
      · subst h
        have hkey : sameKey aid m.messageId
            ⟨st.nextId, aid, uid, m.messageId, m.subject, m.sender, m.senderName, false⟩
            = true := by simp [sameKey]
        have hpres : (EmailStore.mk (st.rows ++ [⟨st.nextId, aid, uid, m.messageId,
            m.subject, m.sender, m.senderName, false⟩]) (st.nextId + 1)).rows.any
            (sameKey aid m.messageId) = true := by
          simp [List.any_append, hkey]
        simpa [fetchFold, hmem', insertEmail] using
          fetchFold_key_mono aid uid ae rest _ aid m.messageId hpres
      · simpa [fetchFold, hmem', insertEmail] using ih _ h

/-- A fetch over messages whose keys are all already present ingests nothing
and leaves the store untouched. -/
theorem fetchFold_skip_all (aid uid : Nat) (ae : String) (msgs : List MailMsg)
    (st : EmailStore)
    (h : ∀ m ∈ msgs, st.rows.any (sameKey aid m.messageId) = true) :
    fetchFold aid uid ae msgs st = ([], st) := by
  induction msgs with
  | nil => rfl
  | cons m rest ih =>
    have hm : st.rows.any (sameKey aid m.messageId) = true := h m (List.mem_cons_self m rest)
    simpa [fetchFold, hm] using ih (fun m2 hm2 => h m2 (List.mem_cons_of_mem m hm2))

/-- Claim C4: running the Message Fetcher a second time on the same mailbox
with no new mail yields zero messages and an empty new-message list, and
leaves the store — including every stored copy's `forwarded` flag — exactly
as the first run left it: every message inspected by the second run already
has its `(account, message-id)` key in the store, so it is skipped. -/
theorem C4_fetcher_idempotent (aid uid : Nat) (ae : String) (mailbox : List MailMsg)
    (st : EmailStore) :
    check_account_for_new_emails_sync aid uid ae mailbox
        (check_account_for_new_emails_sync aid uid ae mailbox st).2.2
      = (0, [], (check_account_for_new_emails_sync aid uid ae mailbox st).2.2) := by
  unfold check_account_for_new_emails_sync
  rw [fetchFold_skip_all aid uid ae (lastTen mailbox) _
    (fun m hm => fetchFold_key_present aid uid ae (lastTen mailbox) st m hm)]
  rfl

/-- Invariant of the `emails` table: no two rows share `(account_id,
message_id)`. -/
def EmailKeysUnique (st : EmailStore) : Prop :=
  st.rows.Pairwise (fun r q => ¬(r.accountId = q.accountId ∧ r.messageId = q.messageId))

/-- One raw insert attempt against the `emails` table, as issued by a fetch
worker; under a race the attempt reaches the store without any prior
application-level existence check. -/
structure InsertOp where
  aid : Nat
  uid : Nat
  mid : String
  subject : String
  sender : String
  senderName : String

/-- Serialized application of raw insert attempts by the store (SQLite
serializes writers); a refused insert leaves the store unchanged. -/
def applyInserts (ops : List InsertOp) (st : EmailStore) : EmailStore :=
  ops.foldl (fun s o =>
    match insertEmail s o.aid o.uid o.mid o.subject o.sender o.senderName with
    | .error _ => s
    | .ok r => r.1) st

/-- A successful schema-checked insert preserves key uniqueness. -/
theorem insertEmail_keys_unique (st : EmailStore) (aid uid : Nat)
    (mid subject sender senderName : String) (st' : EmailStore) (rid : Nat)
    (h : EmailKeysUnique st)
    (hok : insertEmail st aid uid mid subject sender senderName = .ok (st', rid)) :
    EmailKeysUnique st' := by
  unfold insertEmail at hok
  by_cases hmem : st.rows.any (sameKey aid mid) = true
  · simp [hmem] at hok
  · have hmem' : st.rows.any (sameKey aid mid) = false := Bool.eq_false_iff.mpr hmem
    simp only [hmem', Bool.false_eq_true, if_false, Except.ok.injEq, Prod.mk.injEq] at hok
    obtain ⟨hst, _⟩ := hok
    subst hst
    unfold EmailKeysUnique
    rw [List.pairwise_append]
    refine ⟨h, List.pairwise_singleton _ _, ?_⟩
    intro r hr q hq
    have hq' : q = ⟨st.nextId, aid, uid, mid, subject, sender, senderName, false⟩ :=
      List.mem_singleton.mp hq
    subst hq'
    have hfalse : sameKey aid mid r = false := by
      rcases List.any_eq_false.mp hmem' r hr with h2
      exact Bool.eq_false_iff.mpr h2
    intro hcontra
    obtain ⟨h1, h2⟩ := hcontra
    simp [sameKey, h1, h2] at hfalse

/-- Claim C5: key uniqueness of the `emails` table is enforced by the store
itself, through the `UNIQUE(account_id, message_id)` schema constraint of
`init_database`: any serialized sequence of raw insert attempts — including
the interleaved inserts of two overlapping fetch workers racing on the same
account, with no application-level existence check assumed — keeps every
reachable store state free of duplicate `(account, message-id)` pairs. -/
theorem C5_store_level_uniqueness (ops : List InsertOp) (st : EmailStore)
    (h : EmailKeysUnique st) : EmailKeysUnique (applyInserts ops st) := by
  induction ops generalizing st with
  | nil => exact h
  | cons o rest ih =>
    have hstep : EmailKeysUnique
        (match insertEmail st o.aid o.uid o.mid o.subject o.sender o.senderName with
          | .error _ => st
          | .ok r => r.1) := by
      cases hins : insertEmail st o.aid o.uid o.mid o.subject o.sender o.senderName with
      | error e => simpa using h
      | ok r =>
        obtain ⟨st', rid⟩ := r
        exact insertEmail_keys_unique st o.aid o.uid o.mid o.subject o.sender
          o.senderName st' rid h hins
    simpa [applyInserts] using ih _ hstep

/-- Witness for `C5_store_level_uniqueness`: two racing duplicate inserts of
the key `(7, M1)` against a store already holding it leave the store
duplicate-free. -/
theorem C5_store_level_uniqueness_witness :
    EmailKeysUnique ⟨[⟨0, 7, 1, "M1", "s", "a@x.com", "A", false⟩], 1⟩
    ∧ EmailKeysUnique (applyInserts
        [⟨7, 1, "M1", "s", "a@x.com", "A"⟩, ⟨7, 1, "M1", "s2", "b@x.com", "B"⟩]
        ⟨[⟨0, 7, 1, "M1", "s", "a@x.com", "A", false⟩], 1⟩) :=
  ⟨by unfold EmailKeysUnique; decide, C5_store_level_uniqueness
    [⟨7, 1, "M1", "s", "a@x.com", "A"⟩, ⟨7, 1, "M1", "s2", "b@x.com", "B"⟩]
    ⟨[⟨0, 7, 1, "M1", "s", "a@x.com", "A", false⟩], 1⟩ (by unfold EmailKeysUnique; decide)⟩

/-- One row of the `monitor_filters` table. -/
structure FilterRow where
  userId : Nat
  senderEmail : String
  isActive : Bool
deriving DecidableEq

/-- Model of `EmailManager.should_monitor_sender`: count the owner's active
filter rows; with none, monitor every sender; otherwise admit the sender iff
some active row's stored address equals the lowercased sender address. -/
def should_monitor_sender (filters : List FilterRow) (userId : Nat) (senderEmail : String) :
    Bool :=
  let activeCount := (filters.filter (fun f => f.userId == userId && f.isActive)).length
  if activeCount == 0 then
    true
  else
    0 < (filters.filter (fun f =>
      f.userId == userId && f.senderEmail == strLower senderEmail && f.isActive)).length

/-- Filter insertion of the `/monitor add` command: skip when a row for the
owner already stores the lowercased address, else append it as active. -/
def monitor_add (filters : List FilterRow) (userId : Nat) (senderEmail : String) :
    List FilterRow :=
  if filters.any (fun f => f.userId == userId && f.senderEmail == strLower senderEmail) then
    filters
  else
    filters ++ [⟨userId, strLower senderEmail, true⟩]

/-- Case-insensitive equality of addresses, the match the spec describes. -/
def caseInsensitiveMatch (a b : String) : Prop := strLower a = strLower b

/-- Claim C7: for an owner whose active filter rows all store lowercased
addresses (as every row inserted by `monitor_add` does), `allows` is true
unconditionally when the owner has zero active entries, and otherwise true
exactly when the sender address case-insensitively matches some active
entry — false for every other address. -/
theorem C7_sender_filter (filters : List FilterRow) (userId : Nat) (senderEmail : String)
    (hlow : ∀ f ∈ filters, f.userId = userId → f.isActive = true →
      strLower f.senderEmail = f.senderEmail) :
    should_monitor_sender filters userId senderEmail = true ↔
      ((filters.filter (fun f => f.userId == userId && f.isActive)) = []
        ∨ ∃ f ∈ filters, f.userId = userId ∧ f.isActive = true
            ∧ caseInsensitiveMatch senderEmail f.senderEmail) := by
  unfold should_monitor_sender
  by_cases hzero : (filters.filter (fun f => f.userId == userId && f.isActive)).length = 0
  · simp only [hzero]
    simp [List.length_eq_zero.mp hzero]
  · have hne : ((filters.filter (fun f => f.userId == userId && f.isActive)).length == 0)
        = false := by
      simpa using hzero
    simp only [hne, Bool.false_eq_true, if_false]
    constructor
    · intro h
      have hlen := of_decide_eq_true h
      obtain ⟨f, hf⟩ := List.exists_mem_of_length_pos hlen
      have hf2 := List.mem_filter.mp hf
      obtain ⟨hfmem, hfprop⟩ := hf2
      have huid : f.userId = userId := by
        have := hfprop
        simp only [Bool.and_eq_true, beq_iff_eq] at this
        exact this.1.1
      have hsend : f.senderEmail = strLower senderEmail := by
        simp only [Bool.and_eq_true, beq_iff_eq] at hfprop
        exact hfprop.1.2
      have hact : f.isActive = true := by
        simp only [Bool.and_eq_true, beq_iff_eq] at hfprop
        exact hfprop.2
      refine Or.inr ⟨f, hfmem, huid, hact, ?_⟩
      unfold caseInsensitiveMatch
      rw [hlow f hfmem huid hact, hsend]
    · intro h
      rcases h with h | ⟨f, hfmem, huid, hact, hmatch⟩
      · exact absurd (by simpa using congrArg List.length h) hzero
      · have hsend : f.senderEmail = strLower senderEmail := by
          have hl := hlow f hfmem huid hact
          unfold caseInsensitiveMatch at hmatch
          rw [← hl, hmatch]
        have hfin : f ∈ filters.filter (fun f =>
            f.userId == userId && f.senderEmail == strLower senderEmail && f.isActive) := by
          refine List.mem_filter.mpr ⟨hfmem, ?_⟩
          simp [huid, hact, hsend]
        have : 0 < (filters.filter (fun f =>
            f.userId == userId && f.senderEmail == strLower senderEmail && f.isActive)).length :=
          List.length_pos.mpr (List.ne_nil_of_mem hfin)
        exact decide_eq_true this

/-- Witness for `C7_sender_filter`: with one active lowercase entry, a
differently-cased sender of the same address is admitted by the filter. -/
theorem C7_sender_filter_witness :
    should_monitor_sender [⟨5, "boss@corp.com", true⟩] 5 "Boss@Corp.COM" = true ↔
      (([⟨5, "boss@corp.com", true⟩] : List FilterRow).filter
          (fun f => f.userId == 5 && f.isActive) = []
        ∨ ∃ f ∈ ([⟨5, "boss@corp.com", true⟩] : List FilterRow), f.userId = 5
            ∧ f.isActive = true ∧ caseInsensitiveMatch "Boss@Corp.COM" f.senderEmail) :=
  C7_sender_filter [⟨5, "boss@corp.com", true⟩] 5 "Boss@Corp.COM"
    (by intro f hf _ _; cases List.mem_singleton.mp hf; decide)

/-- One row of the `webhooks` table. -/
structure WebhookRow where
  userId : Nat
  url : String
  isActive : Bool
deriving DecidableEq

/-- The `SELECT url FROM webhooks WHERE user_id = ? AND is_active = 1`
lookup (`fetchone`): the first active row for the owner, if any. -/
def active_webhook (webhooks : List WebhookRow) (userId : Nat) : Option WebhookRow :=
  (webhooks.filter (fun w => w.userId == userId && w.isActive)).head?

/-- The `UPDATE emails SET forwarded = 1 WHERE id = ?` statement. -/
def setForwarded (st : EmailStore) (rowId : Nat) : EmailStore :=
  ⟨st.rows.map (fun r => if r.id == rowId then { r with forwarded := true } else r), st.nextId⟩

/-- An HTTP sink environment: the status code `requests.post` observes for a
URL, or `none` when the post raises a transport error. -/
def PostWorld := String → Option Nat

/-- Model of `EmailManager.forward_email_to_webhook`: drop the message when
the sender filter rejects it; no-op without an active webhook; otherwise post
the event and mark the row forwarded exactly on a 204 status. A transport
error (`none`) is swallowed by the `try`/`except`, so the function is total —
no exception ever propagates to the monitoring loop. The translation call and
payload assembly only shape the posted content, which this model folds into
the sink's response. -/
def forward_email_to_webhook (filters : List FilterRow) (webhooks : List WebhookRow)
    (post : PostWorld) (userId : Nat) (d : EmailData) (st : EmailStore) : EmailStore :=
  if should_monitor_sender filters userId d.sender = false then st
  else
    match active_webhook webhooks userId with
    | none => st
    | some w =>
      if post w.url = some 204 then setForwarded st d.id else st

/-- Claim C8: with the sender admitted and an active webhook configured, the
adapter sets the message's forwarded flag iff the sink answers 204; on any
other status or on a transport error the store — and so the flag — is left
exactly as it was, and the adapter, being a total function, propagates no
exception to the monitoring loop. -/
theorem C8_forward_marks_iff_204 (filters : List FilterRow) (webhooks : List WebhookRow)
    (post : PostWorld) (userId : Nat) (d : EmailData) (st : EmailStore) (w : WebhookRow)
    (r : EmailRow)
    (hallow : should_monitor_sender filters userId d.sender = true)
    (hw : active_webhook webhooks userId = some w)
    (hr : r ∈ st.rows) (hid : r.id = d.id) (hflag : r.forwarded = false) :
    ((∀ q ∈ (forward_email_to_webhook filters webhooks post userId d st).rows,
        q.id = d.id → q.forwarded = true) ↔ post w.url = some 204)
    ∧ (post w.url ≠ some 204 →
        forward_email_to_webhook filters webhooks post userId d st = st) := by
  have hnotfalse : (should_monitor_sender filters userId d.sender = false) = False := by
    simp [hallow]
  unfold forward_email_to_webhook
  rw [hw]
  simp only [hnotfalse, if_false]
  by_cases hpost : post w.url = some 204
  · rw [if_pos hpost]
    refine ⟨⟨fun _ => hpost, fun _ => ?_⟩, fun hne => absurd hpost hne⟩
    intro q hq hqid
    unfold setForwarded at hq
    simp only [List.mem_map] at hq
    obtain ⟨r0, _, hr0⟩ := hq
    by_cases h0 : r0.id = d.id
    · rw [← hr0]
      simp [h0]
    · have : q = r0 := by
        rw [← hr0]
        simp [beq_eq_false_iff_ne, h0]
      rw [this] at hqid
      exact absurd hqid h0
  · rw [if_neg hpost]
    refine ⟨⟨fun hall => ?_, fun h204 => absurd h204 hpost⟩, fun _ => rfl⟩
    have := hall r hr hid
    rw [hflag] at this
    exact absurd this Bool.false_ne_true

/-- Witness for `C8_forward_marks_iff_204` at a sink answering 204. -/
theorem C8_forward_marks_iff_204_witness :
    ((∀ q ∈ (forward_email_to_webhook [] [⟨5, "https://hook", true⟩]
        (fun _ => some 204) 5 ⟨0, "a@x.com", "s@y.com", "S", "hi", 5⟩
        ⟨[⟨0, 9, 5, "M1", "hi", "s@y.com", "S", false⟩], 1⟩).rows,
        q.id = 0 → q.forwarded = true) ↔ (fun _ => some 204 : PostWorld) "https://hook" = some 204)
    ∧ ((fun _ => some 204 : PostWorld) "https://hook" ≠ some 204 →
        forward_email_to_webhook [] [⟨5, "https://hook", true⟩]
          (fun _ => some 204) 5 ⟨0, "a@x.com", "s@y.com", "S", "hi", 5⟩
          ⟨[⟨0, 9, 5, "M1", "hi", "s@y.com", "S", false⟩], 1⟩
        = ⟨[⟨0, 9, 5, "M1", "hi", "s@y.com", "S", false⟩], 1⟩) :=
  C8_forward_marks_iff_204 [] [⟨5, "https://hook", true⟩] (fun _ => some 204) 5
    ⟨0, "a@x.com", "s@y.com", "S", "hi", 5⟩
    ⟨[⟨0, 9, 5, "M1", "hi", "s@y.com", "S", false⟩], 1⟩
    ⟨5, "https://hook", true⟩ ⟨0, 9, 5, "M1", "hi", "s@y.com", "S", false⟩
    (by decide) (by decide) (by decide) rfl rfl

/-- One row of the `accounts` table from `init_database` (timestamps
omitted). -/
structure AccountRow where
  id : Nat
  userId : Nat
  email : String
  password : String
  imapServer : String
  imapPort : Nat
  status : String
  totalEmails : Nat
  errorMessage : Option String
deriving DecidableEq

/-- The `accounts` table contents plus its `AUTOINCREMENT` cursor. -/
structure AccountsTable where
  rows : List AccountRow
  nextId : Nat
deriving DecidableEq

/-- Number of rows carrying a given `(user_id, email)` key. -/
def countAccountKey (tbl : AccountsTable) (uid : Nat) (e : String) : Nat :=
  (tbl.rows.filter (fun r => r.userId == uid && r.email == e)).length

/-- Model of `INSERT OR IGNORE INTO accounts (user_id, email, password,
imap_server, imap_port) VALUES (?, ?, ?, ?, ?)` under the schema constraint
`UNIQUE(user_id, email)`: a row whose key is already present is ignored, and
a fresh row starts at the schema defaults `status = 'pending'`,
`total_emails = 0`, `error_message = NULL`. -/
def insert_or_ignore_account (tbl : AccountsTable) (uid : Nat)
    (e p s : String) (port : Nat) : AccountsTable :=
  if tbl.rows.any (fun r => r.userId == uid && r.email == e) then tbl
  else ⟨tbl.rows ++ [⟨tbl.nextId, uid, e, p, s, port, "pending", 0, none⟩], tbl.nextId + 1⟩

/-- The `cursor.executemany` ingest of `process_email_list` over the parsed
`batch_data` entries `(email, password, imap_server, imap_port)`. -/
def insert_accounts_batch (tbl : AccountsTable) (uid : Nat)
    (batch : List (String × String × String × Nat)) : AccountsTable :=
  batch.foldl (fun t b => insert_or_ignore_account t uid b.1 b.2.1 b.2.2.1 b.2.2.2) tbl

/-- One `INSERT OR IGNORE` keeps every existing row verbatim, keeps its key
count, and can only append fresh pending rows. -/
theorem insert_or_ignore_frame (tbl : AccountsTable) (uid : Nat)
    (e p s : String) (port : Nat) :
    ∃ new, (insert_or_ignore_account tbl uid e p s port).rows = tbl.rows ++ new
      ∧ (∀ n ∈ new, n.status = "pending" ∧ n.totalEmails = 0 ∧ n.errorMessage = none)
      ∧ ∀ r ∈ tbl.rows,
          countAccountKey (insert_or_ignore_account tbl uid e p s port) r.userId r.email
            = countAccountKey tbl r.userId r.email := by
  unfold insert_or_ignore_account
  by_cases hmem : tbl.rows.any (fun r => r.userId == uid && r.email == e) = true
  · exact ⟨[], by simp [hmem]⟩
  · have hmem' : tbl.rows.any (fun r => r.userId == uid && r.email == e) = false :=
      Bool.eq_false_iff.mpr hmem
    refine ⟨[⟨tbl.nextId, uid, e, p, s, port, "pending", 0, none⟩], by simp [hmem'], ?_, ?_⟩
    · intro n hn
      cases List.mem_singleton.mp hn
      exact ⟨rfl, rfl, rfl⟩
    · intro r hr
      have hrkey : (r.userId == uid && r.email == e) = false :=
        Bool.eq_false_iff.mpr (List.any_eq_false.mp hmem' r hr)
      unfold countAccountKey
      simp only [hmem', Bool.false_eq_true, if_false, List.filter_append, List.length_append]
      have : (([⟨tbl.nextId, uid, e, p, s, port, "pending", 0, none⟩] : List AccountRow).filter
          (fun q => q.userId == r.userId && q.email == r.email)).length = 0 := by
        simp only [List.filter, List.length_nil]
        have : (uid == r.userId && e == r.email) = false := by
          rcases Bool.and_eq_false_iff.mp hrkey with h | h
          · simp only [Bool.and_eq_false_iff]
            left
            rw [beq_eq_false_iff_ne] at h ⊢
            exact fun hc => h hc.symm
          · simp only [Bool.and_eq_false_iff]
            right
            rw [beq_eq_false_iff_ne] at h ⊢
            exact fun hc => h hc.symm
        simp [this]
      simp [this]

/-- Claim C9: submitting a credential batch that repeats an `(owner, address)`
pair already in the store never deletes or replaces the existing Account row:
the row — secret, status, endpoint and counters included — survives verbatim,
its key's row count is unchanged (no duplicate is created), and the ingest at
most appends fresh rows, each starting at the pending defaults. -/
theorem C9_reupload_accumulates (tbl : AccountsTable) (uid : Nat)
    (batch : List (String × String × String × Nat)) (r : AccountRow)
    (hr : r ∈ tbl.rows) :
    r ∈ (insert_accounts_batch tbl uid batch).rows
    ∧ countAccountKey (insert_accounts_batch tbl uid batch) r.userId r.email
        = countAccountKey tbl r.userId r.email
    ∧ ∃ new, (insert_accounts_batch tbl uid batch).rows = tbl.rows ++ new
        ∧ ∀ n ∈ new, n.status = "pending" := by
  induction batch generalizing tbl with
  | nil => exact ⟨hr, rfl, ⟨[], by simp [insert_accounts_batch]⟩⟩
  | cons b rest ih =>
    obtain ⟨new1, hrows1, hnew1, hcount1⟩ :=
      insert_or_ignore_frame tbl uid b.1 b.2.1 b.2.2.1 b.2.2.2
    have hr1 : r ∈ (insert_or_ignore_account tbl uid b.1 b.2.1 b.2.2.1 b.2.2.2).rows := by
      rw [hrows1]; exact List.mem_append_left _ hr
    obtain ⟨hmem2, hcount2, new2, hrows2, hnew2⟩ :=
      ih (insert_or_ignore_account tbl uid b.1 b.2.1 b.2.2.1 b.2.2.2) hr1
    have hfold : insert_accounts_batch tbl uid (b :: rest)
        = insert_accounts_batch (insert_or_ignore_account tbl uid b.1 b.2.1 b.2.2.1 b.2.2.2)
            uid rest := by
      simp [insert_accounts_batch]
    refine ⟨by rw [hfold]; exact hmem2, by rw [hfold, hcount2]; exact hcount1 r hr, ?_⟩
    refine ⟨new1 ++ new2, ?_, ?_⟩
    · rw [hfold, hrows2, hrows1, List.append_assoc]
    · intro n hn
      rcases List.mem_append.mp hn with h | h
      · exact (hnew1 n h).1
      · exact hnew2 n h

/-- Witness for `C9_reupload_accumulates`: re-uploading the credential
`a@x.com` for owner 1, with a different password, leaves the stored active
row untouched and creates no duplicate. -/
theorem C9_reupload_accumulates_witness :
    (⟨3, 1, "a@x.com", "oldpw", "imap.x.com", 993, "active", 7, none⟩ : AccountRow)
      ∈ (insert_accounts_batch
          ⟨[⟨3, 1, "a@x.com", "oldpw", "imap.x.com", 993, "active", 7, none⟩], 4⟩ 1
          [("a@x.com", "newpw", "imap.x.com", 993)]).rows
    ∧ countAccountKey (insert_accounts_batch
          ⟨[⟨3, 1, "a@x.com", "oldpw", "imap.x.com", 993, "active", 7, none⟩], 4⟩ 1
          [("a@x.com", "newpw", "imap.x.com", 993)]) 1 "a@x.com"
        = countAccountKey
            ⟨[⟨3, 1, "a@x.com", "oldpw", "imap.x.com", 993, "active", 7, none⟩], 4⟩ 1 "a@x.com"
    ∧ ∃ new, (insert_accounts_batch
          ⟨[⟨3, 1, "a@x.com", "oldpw", "imap.x.com", 993, "active", 7, none⟩], 4⟩ 1
          [("a@x.com", "newpw", "imap.x.com", 993)]).rows
        = [⟨3, 1, "a@x.com", "oldpw", "imap.x.com", 993, "active", 7, none⟩] ++ new
        ∧ ∀ n ∈ new, n.status = "pending" :=
  C9_reupload_accumulates
    ⟨[⟨3, 1, "a@x.com", "oldpw", "imap.x.com", 993, "active", 7, none⟩], 4⟩ 1
    [("a@x.com", "newpw", "imap.x.com", 993)]
    ⟨3, 1, "a@x.com", "oldpw", "imap.x.com", 993, "active", 7, none⟩
    (List.mem_singleton.mpr rfl)

/-- One account tuple `(id, email, password, imap_server, imap_port)` as
fetched for validation by `process_email_list`. -/
structure AccountData where
  id : Nat
  email : String
  password : String
  imapServer : String
  imapPort : Nat
deriving DecidableEq

/-- Validation-run state visible to the engine: each account's status column,
the run counters of `login_stats`, and the channel messages emitted. -/
structure EngineState where
  statusOf : Nat → String
  processed : Nat
  successful : Nat
  failed : Nat
  twofa : Nat
  markers : List String

/-- The stop marker message sent when `stop_login_requested` is observed. -/
def stopMarker : String := "⏹️ **Validation stopped by user request**"

/-- The three terminal statuses a validated account can receive. -/
def terminalStatuses : List String := ["active", "2fa", "failed"]

/-- Outcome application of `process_email_list`'s result loop: a successful
probe makes the account `active` and bumps `successful`; the `2FA_REQUIRED`
message makes it `2fa` and bumps `twofa`; anything else makes it `failed` and
bumps `failed`; `processed` always advances. -/
def applyOutcome (st : EngineState) (aid : Nat) (res : TestResult) : EngineState :=
  if res.success then
    { st with
      statusOf := fun x => if x = aid then "active" else st.statusOf x
      successful := st.successful + 1
      processed := st.processed + 1 }
  else if res.message = "2FA_REQUIRED" then
    { st with
      statusOf := fun x => if x = aid then "2fa" else st.statusOf x
      twofa := st.twofa + 1
      processed := st.processed + 1 }
  else
    { st with
      statusOf := fun x => if x = aid then "failed" else st.statusOf x
      failed := st.failed + 1
      processed := st.processed + 1 }

/-- One dispatched batch: every account of the batch is probed and its
outcome applied (worker completion order does not matter to the resulting
state, which is applied row-by-row keyed on account id). -/
def processBatch (world : ProbeWorld) (st : EngineState) (batch : List AccountData) :
    EngineState :=
  batch.foldl
    (fun s a => applyOutcome s a.id (test_email_connection world a.email a.imapServer a.imapPort))
    st

/-- Python's `accounts[i:i+100]` slicing loop, fuel-structured on the list
length so the definition evaluates in the kernel. -/
def chunksFuel : Nat → List AccountData → List (List AccountData)
  | 0, _ => []
  | _ + 1, [] => []
  | fuel + 1, x :: xs => ((x :: xs).take 100) :: chunksFuel fuel ((x :: xs).drop 100)

/-- The batch partition of `process_email_list` (`batch_size = 100`). -/
def chunks100 (l : List AccountData) : List (List AccountData) := chunksFuel l.length l

/-- Batch loop of `process_email_list`: at the start of each batch poll the
`stop_login_requested` flag (its value when batch `k` starts is `stopAt k`);
when set, send the stop marker and dispatch nothing further; otherwise
dispatch the batch and continue. -/
def processBatches (world : ProbeWorld) (stopAt : Nat → Bool) :
    Nat → List (List AccountData) → EngineState → EngineState
  | _, [], st => st
  | k, b :: rest, st =>
    if stopAt k then { st with markers := st.markers ++ [stopMarker] }
    else processBatches world stopAt (k + 1) rest (processBatch world st b)

/-- Model of the validation phase of `EmailManager.process_email_list`:
partition the pending accounts into batches of 100 and run the batch loop. -/
def process_email_list (world : ProbeWorld) (stopAt : Nat → Bool)
    (accounts : List AccountData) (st : EngineState) : EngineState :=
  processBatches world stopAt 0 (chunks100 accounts) st

/-- Outcome application touches only the probed account's status row. -/
theorem applyOutcome_statusOf_other (st : EngineState) (aid : Nat) (res : TestResult)
    (x : Nat) (hx : x ≠ aid) : (applyOutcome st aid res).statusOf x = st.statusOf x := by
  unfold applyOutcome
  by_cases hs : res.success <;> by_cases hm : res.message = "2FA_REQUIRED" <;>
    simp [hs, hm, hx]

/-- Outcome application writes one of the three terminal statuses. -/
theorem applyOutcome_statusOf_self (st : EngineState) (aid : Nat) (res : TestResult) :
    (applyOutcome st aid res).statusOf aid ∈ terminalStatuses := by
  unfold applyOutcome terminalStatuses
  by_cases hs : res.success <;> by_cases hm : res.message = "2FA_REQUIRED" <;>
    simp [hs, hm]

/-- Outcome application advances `processed` by one, adds one across the three
outcome counters, and emits no messages. -/
theorem applyOutcome_counters (st : EngineState) (aid : Nat) (res : TestResult) :
    (applyOutcome st aid res).processed = st.processed + 1
    ∧ (applyOutcome st aid res).successful + (applyOutcome st aid res).failed
        + (applyOutcome st aid res).twofa
      = st.successful + st.failed + st.twofa + 1
    ∧ (applyOutcome st aid res).markers = st.markers := by
  unfold applyOutcome
  by_cases hs : res.success <;> by_cases hm : res.message = "2FA_REQUIRED" <;>
    simp [hs, hm] <;> omega

/-- A terminal status row is never overwritten with a non-terminal one. -/
theorem processBatch_terminal_pres (world : ProbeWorld) (batch : List AccountData)
    (st : EngineState) (x : Nat) (hx : st.statusOf x ∈ terminalStatuses) :
    (processBatch world st batch).statusOf x ∈ terminalStatuses := by
  induction batch generalizing st with
  | nil => exact hx
  | cons a rest ih =>
    refine ih _ ?_
    by_cases hxa : x = a.id
    · subst hxa
      exact applyOutcome_statusOf_self st _ _
    · rw [applyOutcome_statusOf_other st a.id _ x hxa]
      exact hx

/-- Every account of a dispatched batch ends the batch with a terminal
status. -/
theorem processBatch_terminal (world : ProbeWorld) (batch : List AccountData)
    (st : EngineState) (a : AccountData) (ha : a ∈ batch) :
    (processBatch world st batch).statusOf a.id ∈ terminalStatuses := by
  induction batch generalizing st with
  | nil => cases ha
  | cons b rest ih =>
    rcases List.mem_cons.mp ha with h | h
    · subst h
      exact processBatch_terminal_pres world rest _ a.id (applyOutcome_statusOf_self st _ _)
    · exact ih _ h

/-- A batch leaves the status of every account outside it unchanged. -/
theorem processBatch_statusOf_other (world : ProbeWorld) (batch : List AccountData)
    (st : EngineState) (x : Nat) (hx : ∀ a ∈ batch, a.id ≠ x) :
    (processBatch world st batch).statusOf x = st.statusOf x := by
  induction batch generalizing st with
  | nil => rfl
  | cons b rest ih =>
    have hbx : x ≠ b.id := fun hc => hx b (List.mem_cons_self b rest) hc.symm
    rw [processBatch, List.foldl_cons, ← processBatch]
    rw [ih _ (fun a ha => hx a (List.mem_cons_of_mem b ha))]
    exact applyOutcome_statusOf_other st b.id _ x hbx

/-- A batch advances `processed` by its size, adds its size across the three
outcome counters, and emits no messages. -/
theorem processBatch_counters (world : ProbeWorld) (batch : List AccountData)
    (st : EngineState) :
    (processBatch world st batch).processed = st.processed + batch.length
    ∧ (processBatch world st batch).successful + (processBatch world st batch).failed
        + (processBatch world st batch).twofa
      = st.successful + st.failed + st.twofa + batch.length
    ∧ (processBatch world st batch).markers = st.markers := by
  induction batch generalizing st with
  | nil => exact ⟨rfl, rfl, rfl⟩
  | cons b rest ih =>
    obtain ⟨hp, hs, hm⟩ :=
      ih (applyOutcome st b.id (test_email_connection world b.email b.imapServer b.imapPort))
    obtain ⟨hp1, hs1, hm1⟩ :=
      applyOutcome_counters st b.id (test_email_connection world b.email b.imapServer b.imapPort)
    rw [processBatch, List.foldl_cons, ← processBatch]
    refine ⟨?_, ?_, ?_⟩
    · rw [hp, hp1, List.length_cons]; omega
    · rw [hs, hs1, List.length_cons]; omega
    · rw [hm, hm1]

/-- Shape of a cancelled run: with the flag false for the first `j` batch
polls and true at poll `j` (with batches remaining), the loop processes
exactly the first `j` batches and then appends the stop marker. -/
theorem processBatches_stopped (world : ProbeWorld) (stopAt : Nat → Bool) (j : Nat) :
    ∀ (bs : List (List AccountData)) (k : Nat) (st : EngineState),
    (∀ i, i < j → stopAt (k + i) = false) → stopAt (k + j) = true → j < bs.length →
    processBatches world stopAt k bs st =
      { (bs.take j).foldl (processBatch world) st with
        markers := ((bs.take j).foldl (processBatch world) st).markers ++ [stopMarker] } := by
  induction j with
  | zero =>
    intro bs k st _ hj hlen
    match bs with
    | [] => exact absurd hlen (by simp)
    | b :: rest =>
      rw [processBatches]
      rw [Nat.add_zero] at hj
      rw [hj]
      simp
  | succ j ih =>
    intro bs k st hstop hj hlen
    match bs with
    | [] => exact absurd hlen (by simp)
    | b :: rest =>
      have hk : stopAt k = false := by
        have := hstop 0 (Nat.succ_pos j)
        rwa [Nat.add_zero] at this
      rw [processBatches, hk]
      simp only [Bool.false_eq_true, if_false]
      have hstop' : ∀ i, i < j → stopAt (k + 1 + i) = false := by
        intro i hi
        have h0 := hstop (i + 1) (Nat.succ_lt_succ hi)
        have he : k + (i + 1) = k + 1 + i := by omega
        rwa [he] at h0
      have hj' : stopAt (k + 1 + j) = true := by
        have : k + (j + 1) = k + 1 + j := by omega
        rwa [this] at hj
      have hlen' : j < rest.length := by
        simpa using Nat.lt_of_succ_lt_succ hlen
      rw [ih rest (k + 1) (processBatch world st b) hstop' hj' hlen']
      simp [List.take_succ_cons]

/-- Batch-list folds lift the per-batch counter and frame facts. -/
theorem foldl_batches_facts (world : ProbeWorld) (bs : List (List AccountData))
    (st : EngineState) :
    ((bs.foldl (processBatch world) st).processed = st.processed + bs.flatten.length
      ∧ (bs.foldl (processBatch world) st).successful
          + (bs.foldl (processBatch world) st).failed
          + (bs.foldl (processBatch world) st).twofa
        = st.successful + st.failed + st.twofa + bs.flatten.length
      ∧ (bs.foldl (processBatch world) st).markers = st.markers)
    ∧ (∀ a ∈ bs.flatten, (bs.foldl (processBatch world) st).statusOf a.id ∈ terminalStatuses)
    ∧ (∀ x, (∀ a ∈ bs.flatten, a.id ≠ x) →
        (bs.foldl (processBatch world) st).statusOf x = st.statusOf x) := by
  induction bs generalizing st with
  | nil => exact ⟨⟨rfl, rfl, rfl⟩, fun a ha => absurd ha (by simp), fun x _ => rfl⟩
  | cons b rest ih =>
    obtain ⟨⟨hp, hs, hm⟩, hterm, hother⟩ := ih (processBatch world st b)
    obtain ⟨hp1, hs1, hm1⟩ := processBatch_counters world b st
    rw [List.foldl_cons]
    refine ⟨⟨?_, ?_, ?_⟩, ?_, ?_⟩
    · rw [hp, hp1, List.flatten_cons, List.length_append]; omega
    · rw [hs, hs1, List.flatten_cons, List.length_append]; omega
    · rw [hm, hm1]
    · intro a ha
      rw [List.flatten_cons] at ha
      rcases List.mem_append.mp ha with h | h
      · have hb : (processBatch world st b).statusOf a.id ∈ terminalStatuses :=
          processBatch_terminal world b st a h
        by_cases hrest : ∀ q ∈ rest.flatten, q.id ≠ a.id
        · rw [hother a.id hrest]; exact hb
        · push_neg at hrest
          obtain ⟨q, hq, hqid⟩ := hrest
          have := hterm q hq
          rwa [hqid] at this
      · exact hterm a h
    · intro x hx
      have hx1 : ∀ a ∈ b, a.id ≠ x := fun a ha =>
        hx a (by rw [List.flatten_cons]; exact List.mem_append_left _ ha)
      have hx2 : ∀ a ∈ rest.flatten, a.id ≠ x := fun a ha =>
        hx a (by rw [List.flatten_cons]; exact List.mem_append_right _ ha)
      rw [hother x hx2]
      exact processBatch_statusOf_other world b st x hx1

/-- Claim C6: the engine polls the cancellation flag only at the start of each
batch (`stopAt k` is its value at poll `k`). When the flag is first seen set
at batch `j` with batches remaining, no further batch is dispatched: the stop
marker is the one message emitted, every account of the `j` dispatched batches
holds exactly one terminal status, accounts of undispatched batches are
untouched, and the counters account exactly for the dispatched accounts. -/
theorem C6_cancellation (world : ProbeWorld) (stopAt : Nat → Bool)
    (accounts : List AccountData) (st : EngineState) (j : Nat)
    (hstop : ∀ i, i < j → stopAt i = false)
    (hj : stopAt j = true)
    (hlen : j < (chunks100 accounts).length) :
    (process_email_list world stopAt accounts st).markers = st.markers ++ [stopMarker]
    ∧ (∀ a ∈ ((chunks100 accounts).take j).flatten,
        (process_email_list world stopAt accounts st).statusOf a.id ∈ terminalStatuses)
    ∧ (∀ x, (∀ a ∈ ((chunks100 accounts).take j).flatten, a.id ≠ x) →
        (process_email_list world stopAt accounts st).statusOf x = st.statusOf x)
    ∧ (process_email_list world stopAt accounts st).processed
        = st.processed + ((chunks100 accounts).take j).flatten.length
    ∧ (process_email_list world stopAt accounts st).successful
        + (process_email_list world stopAt accounts st).failed
        + (process_email_list world stopAt accounts st).twofa
      = st.successful + st.failed + st.twofa
          + ((chunks100 accounts).take j).flatten.length := by
  have hshape := processBatches_stopped world stopAt j (chunks100 accounts) 0 st
    (by intro i hi; simpa using hstop i hi) (by simpa using hj) hlen
  obtain ⟨⟨hp, hs, hm⟩, hterm, hother⟩ :=
    foldl_batches_facts world ((chunks100 accounts).take j) st
  unfold process_email_list
  rw [hshape]
  refine ⟨?_, ?_, ?_, ?_, ?_⟩
  · show (((chunks100 accounts).take j).foldl (processBatch world) st).markers ++ [stopMarker]
      = st.markers ++ [stopMarker]
    rw [hm]
  · exact hterm
  · exact hother
  · exact hp
  · exact hs

/-- Witness for `C6_cancellation`: a stop already requested when the run
starts dispatches nothing, emits only the stop marker, and leaves the single
pending account pending. -/
theorem C6_cancellation_witness :
    (process_email_list (fun _ _ => ProbeResult.ok 0) (fun _ => true)
        [⟨1, "a@x.com", "pw", "imap.x.com", 993⟩]
        ⟨fun _ => "pending", 0, 0, 0, 0, []⟩).markers = [] ++ [stopMarker]
    ∧ (∀ a ∈ ((chunks100 [⟨1, "a@x.com", "pw", "imap.x.com", 993⟩]).take 0).flatten,
        (process_email_list (fun _ _ => ProbeResult.ok 0) (fun _ => true)
          [⟨1, "a@x.com", "pw", "imap.x.com", 993⟩]
          ⟨fun _ => "pending", 0, 0, 0, 0, []⟩).statusOf a.id ∈ terminalStatuses)
    ∧ (∀ x, (∀ a ∈ ((chunks100 [⟨1, "a@x.com", "pw", "imap.x.com", 993⟩]).take 0).flatten,
          a.id ≠ x) →
        (process_email_list (fun _ _ => ProbeResult.ok 0) (fun _ => true)
          [⟨1, "a@x.com", "pw", "imap.x.com", 993⟩]
          ⟨fun _ => "pending", 0, 0, 0, 0, []⟩).statusOf x
          = (⟨fun _ => "pending", 0, 0, 0, 0, []⟩ : EngineState).statusOf x)
    ∧ (process_email_list (fun _ _ => ProbeResult.ok 0) (fun _ => true)
        [⟨1, "a@x.com", "pw", "imap.x.com", 993⟩]
        ⟨fun _ => "pending", 0, 0, 0, 0, []⟩).processed
      = 0 + ((chunks100 [⟨1, "a@x.com", "pw", "imap.x.com", 993⟩]).take 0).flatten.length
    ∧ (process_email_list (fun _ _ => ProbeResult.ok 0) (fun _ => true)
        [⟨1, "a@x.com", "pw", "imap.x.com", 993⟩]
        ⟨fun _ => "pending", 0, 0, 0, 0, []⟩).successful
      + (process_email_list (fun _ _ => ProbeResult.ok 0) (fun _ => true)
        [⟨1, "a@x.com", "pw", "imap.x.com", 993⟩]
        ⟨fun _ => "pending", 0, 0, 0, 0, []⟩).failed
      + (process_email_list (fun _ _ => ProbeResult.ok 0) (fun _ => true)
        [⟨1, "a@x.com", "pw", "imap.x.com", 993⟩]
        ⟨fun _ => "pending", 0, 0, 0, 0, []⟩).twofa
      = 0 + 0 + 0
          + ((chunks100 [⟨1, "a@x.com", "pw", "imap.x.com", 993⟩]).take 0).flatten.length :=
  C6_cancellation (fun _ _ => ProbeResult.ok 0) (fun _ => true)
    [⟨1, "a@x.com", "pw", "imap.x.com", 993⟩]
    ⟨fun _ => "pending", 0, 0, 0, 0, []⟩ 0
    (fun i hi => absurd hi (Nat.not_lt_zero i)) rfl (by decide)

/-- Well-formedness the `AUTOINCREMENT` id column maintains: all row ids lie
below the cursor and no two rows share an id. -/
def StoreWf (st : EmailStore) : Prop :=
  (∀ r ∈ st.rows, r.id < st.nextId) ∧ (st.rows.map (fun r => r.id)).Nodup

/-- Appending a row at the cursor keeps the store well-formed. -/
theorem wf_snoc (st : EmailStore) (row : EmailRow) (hid : row.id = st.nextId)
    (hwf : StoreWf st) : StoreWf ⟨st.rows ++ [row], st.nextId + 1⟩ := by
  obtain ⟨hb, hn⟩ := hwf
  constructor
  · intro r hr
    rcases List.mem_append.mp hr with h | h
    · exact Nat.lt_succ_of_lt (hb r h)
    · cases List.mem_singleton.mp h
      rw [hid]
      exact Nat.lt_succ_self _
  · rw [List.map_append, List.nodup_append]
    refine ⟨hn, by simp, ?_⟩
    intro x hx hx2
    have hxr : x = row.id := by simpa using hx2
    subst hxr
    obtain ⟨r, hr, hrid⟩ := List.mem_map.mp hx
    have := hb r hr
    rw [hrid, hid] at this
    exact Nat.lt_irrefl _ this

/-- A fetch keeps the store well-formed. -/
theorem fetchFold_wf (aid uid : Nat) (ae : String) (msgs : List MailMsg)
    (st : EmailStore) (hwf : StoreWf st) : StoreWf (fetchFold aid uid ae msgs st).2 := by
  induction msgs generalizing st with
  | nil => exact hwf
  | cons m rest ih =>
    by_cases hmem : st.rows.any (sameKey aid m.messageId) = true
    · simpa [fetchFold, hmem] using ih st hwf
    · have hmem' : st.rows.any (sameKey aid m.messageId) = false := Bool.eq_false_iff.mpr hmem
      simpa [fetchFold, hmem', insertEmail] using
        ih _ (wf_snoc st ⟨st.nextId, aid, uid, m.messageId, m.subject, m.sender,
          m.senderName, false⟩ rfl hwf)

/-- Every `email_data` record a fetch emits carries an id at or above the
store cursor the fetch started from. -/
theorem fetchFold_ds_ids (aid uid : Nat) (ae : String) (msgs : List MailMsg)
    (st : EmailStore) :
    ∀ d ∈ (fetchFold aid uid ae msgs st).1, st.nextId ≤ d.id := by
  induction msgs generalizing st with
  | nil => intro d hd; cases hd
  | cons m rest ih =>
    by_cases hmem : st.rows.any (sameKey aid m.messageId) = true
    · intro d hd
      refine ih st d ?_
      simpa [fetchFold, hmem] using hd
    · have hmem' : st.rows.any (sameKey aid m.messageId) = false := Bool.eq_false_iff.mpr hmem
      intro d hd
      rw [fetchFold] at hd
      simp only [hmem', Bool.false_eq_true, if_false, insertEmail] at hd
      rcases List.mem_cons.mp hd with h | h
      · subst h; exact Nat.le_refl _
      · exact Nat.le_trans (Nat.le_succ _)
          (ih ⟨st.rows ++ [⟨st.nextId, aid, uid, m.messageId, m.subject, m.sender,
            m.senderName, false⟩], st.nextId + 1⟩ d h)

/-- Key presence in rows versus a positive key count. -/
theorem countKey_pos_iff_any (st : EmailStore) (aid : Nat) (mid : String) :
    0 < countKey st aid mid ↔ st.rows.any (sameKey aid mid) = true := by
  unfold countKey
  rw [List.length_pos, List.any_eq_true]
  constructor
  · intro h
    obtain ⟨r, hr⟩ := List.exists_mem_of_ne_nil _ h
    obtain ⟨hmem, hp⟩ := List.mem_filter.mp hr
    exact ⟨r, hmem, hp⟩
  · intro ⟨r, hmem, hp⟩
    exact List.ne_nil_of_mem (List.mem_filter.mpr ⟨hmem, hp⟩)

/-- An absent key has count zero. -/
theorem countKey_zero_of_any_false (st : EmailStore) (aid : Nat) (mid : String)
    (h : st.rows.any (sameKey aid mid) = false) : countKey st aid mid = 0 := by
  by_cases hc : countKey st aid mid = 0
  · exact hc
  · have := (countKey_pos_iff_any st aid mid).mp (Nat.pos_of_ne_zero hc)
    rw [h] at this
    cases this

/-- A fetch never pushes a key count above one: the dedup check (and, under
it, the schema constraint) blocks a second insert of a present key, and a
fresh insert starts from count zero. -/
theorem fetchFold_count_le_one (aid uid : Nat) (ae : String) (msgs : List MailMsg)
    (st : EmailStore) (mid : String) (hc : countKey st aid mid ≤ 1) :
    countKey (fetchFold aid uid ae msgs st).2 aid mid ≤ 1 := by
  induction msgs generalizing st with
  | nil => exact hc
  | cons m rest ih =>
    by_cases hmem : st.rows.any (sameKey aid m.messageId) = true
    · simpa [fetchFold, hmem] using ih st hc
    · have hmem' : st.rows.any (sameKey aid m.messageId) = false := Bool.eq_false_iff.mpr hmem
      have hstep : countKey ⟨st.rows ++ [⟨st.nextId, aid, uid, m.messageId, m.subject,
          m.sender, m.senderName, false⟩], st.nextId + 1⟩ aid mid ≤ 1 := by
        unfold countKey at hc ⊢
        rw [List.filter_append, List.length_append]
        by_cases hm2 : m.messageId = mid
        · subst hm2
          have h0 : (st.rows.filter (sameKey aid m.messageId)).length = 0 :=
            countKey_zero_of_any_false st aid m.messageId hmem'
          rw [h0]
          simp [sameKey]
        · have h1 : (([⟨st.nextId, aid, uid, m.messageId, m.subject, m.sender,
              m.senderName, false⟩] : List EmailRow).filter (sameKey aid mid)).length = 0 := by
            simp [sameKey, hm2]
          rw [h1]
          simpa using hc
      simpa [fetchFold, hmem', insertEmail] using ih _ hstep

/-- Rows carrying a given key after a fetch either predate the fetch or were
just inserted from a mailbox message with that id — hence, when all mailbox
messages with that id share one sender, they carry that sender and the
`forwarded` default `false`. -/
theorem fetchFold_key_rows (aid uid : Nat) (ae : String) (msgs : List MailMsg)
    (st : EmailStore) (mid sdr : String)
    (hmsg : ∀ m2 ∈ msgs, m2.messageId = mid → m2.sender = sdr) :
    ∀ q ∈ (fetchFold aid uid ae msgs st).2.rows, sameKey aid mid q = true →
      q ∈ st.rows ∨ (q.sender = sdr ∧ q.forwarded = false) := by
  induction msgs generalizing st with
  | nil => exact fun q hq _ => Or.inl hq
  | cons m rest ih =>
    have hmsg' : ∀ m2 ∈ rest, m2.messageId = mid → m2.sender = sdr :=
      fun m2 h2 => hmsg m2 (List.mem_cons_of_mem m h2)
    by_cases hmem : st.rows.any (sameKey aid m.messageId) = true
    · intro q hq hkey
      refine ih st hmsg' q ?_ hkey
      simpa [fetchFold, hmem] using hq
    · have hmem' : st.rows.any (sameKey aid m.messageId) = false := Bool.eq_false_iff.mpr hmem
      intro q hq hkey
      have hq' : q ∈ (fetchFold aid uid ae rest
          ⟨st.rows ++ [⟨st.nextId, aid, uid, m.messageId, m.subject, m.sender,
            m.senderName, false⟩], st.nextId + 1⟩).2.rows := by
        simpa [fetchFold, hmem', insertEmail] using hq
      rcases ih _ hmsg' q hq' hkey with h | h
      · rcases List.mem_append.mp h with h2 | h2
        · exact Or.inl h2
        · cases List.mem_singleton.mp h2
          right
          have hqmid : m.messageId = mid := by
            simpa [sameKey] using hkey
          exact ⟨hmsg m (List.mem_cons_self m rest) hqmid, rfl⟩
      · exact Or.inr h

/-- In a well-formed store, the row whose id an emitted `email_data` record
names carries the record's sender. -/
theorem fetchFold_ds_row (aid uid : Nat) (ae : String) (msgs : List MailMsg)
    (st : EmailStore) (hwf : StoreWf st) :
    ∀ d ∈ (fetchFold aid uid ae msgs st).1,
      ∀ r ∈ (fetchFold aid uid ae msgs st).2.rows, r.id = d.id → r.sender = d.sender := by
  induction msgs generalizing st with
  | nil => exact fun d hd => absurd hd (by simp [fetchFold])
  | cons m rest ih =>
    by_cases hmem : st.rows.any (sameKey aid m.messageId) = true
    · intro d hd r hr hid
      refine ih st hwf d ?_ r ?_ hid
      · simpa [fetchFold, hmem] using hd
      · simpa [fetchFold, hmem] using hr
    · have hmem' : st.rows.any (sameKey aid m.messageId) = false := Bool.eq_false_iff.mpr hmem
      intro d hd r hr hid
      have hwf2 : StoreWf ⟨st.rows ++ [⟨st.nextId, aid, uid, m.messageId, m.subject,
          m.sender, m.senderName, false⟩], st.nextId + 1⟩ :=
        wf_snoc st _ rfl hwf
      have hd' : d = (⟨st.nextId, ae, m.sender, m.senderName, m.subject, uid⟩ : EmailData)
          ∨ d ∈ (fetchFold aid uid ae rest
            ⟨st.rows ++ [⟨st.nextId, aid, uid, m.messageId, m.subject, m.sender,
              m.senderName, false⟩], st.nextId + 1⟩).1 := by
        have := hd
        rw [fetchFold] at this
        simp only [hmem', Bool.false_eq_true, if_false, insertEmail] at this
        exact List.mem_cons.mp this
      have hr' : r ∈ (fetchFold aid uid ae rest
          ⟨st.rows ++ [⟨st.nextId, aid, uid, m.messageId, m.subject, m.sender,
            m.senderName, false⟩], st.nextId + 1⟩).2.rows := by
        simpa [fetchFold, hmem', insertEmail] using hr
      rcases hd' with h | h
      · subst h
        obtain ⟨new, hrows, hprops⟩ := fetchFold_rows aid uid ae rest
          ⟨st.rows ++ [⟨st.nextId, aid, uid, m.messageId, m.subject, m.sender,
            m.senderName, false⟩], st.nextId + 1⟩
        rw [hrows] at hr'
        rcases List.mem_append.mp hr' with h2 | h2
        · rcases List.mem_append.mp h2 with h3 | h3
          · have := hwf.1 r h3
            rw [hid] at this
            exact absurd this (Nat.lt_irrefl _)
          · cases List.mem_singleton.mp h3
            rfl
        · have := (hprops r h2).1
          rw [hid] at this
          exact absurd this (by simp)
      · exact ih _ hwf2 d h r hr' hid

/-- Sequential forwarding of one fetch's `email_data` records, as the
monitoring loop's tasks apply `forward_email_to_webhook` to each new
message. -/
def forwardAll (filters : List FilterRow) (webhooks : List WebhookRow) (post : PostWorld)
    (uid : Nat) (ds : List EmailData) (st : EmailStore) : EmailStore :=
  ds.foldl (fun s d => forward_email_to_webhook filters webhooks post uid d s) st

/-- The records a polling cycle hands to the sink: those the sender filter
admits while an active webhook exists (exactly the cases in which
`forward_email_to_webhook` issues a post). -/
def delivered_messages (filters : List FilterRow) (webhooks : List WebhookRow)
    (uid : Nat) (ds : List EmailData) : List EmailData :=
  ds.filter (fun d => should_monitor_sender filters uid d.sender
    && (active_webhook webhooks uid).isSome)

/-- One monitoring-loop pass over one account: fetch the unseen recent
messages (storing them first), then run the forwarding path over each; the
second component lists the records handed to the sink. -/
def poll_cycle (filters : List FilterRow) (webhooks : List WebhookRow) (post : PostWorld)
    (aid uid : Nat) (ae : String) (mailbox : List MailMsg) (st : EmailStore) :
    EmailStore × List EmailData :=
  let r := check_account_for_new_emails_sync aid uid ae mailbox st
  (forwardAll filters webhooks post uid r.2.1 r.2.2,
    delivered_messages filters webhooks uid r.2.1)

/-- One forwarding call only rewrites rows in place: its effect is a map that
either keeps a row or sets its `forwarded` flag, the latter only for the
forwarded record's row id and only with the sender filter admitting it. -/
theorem forward_shape (filters : List FilterRow) (webhooks : List WebhookRow)
    (post : PostWorld) (uid : Nat) (d : EmailData) (st : EmailStore) :
    ∃ G : EmailRow → EmailRow,
      (forward_email_to_webhook filters webhooks post uid d st).rows = st.rows.map G
      ∧ (forward_email_to_webhook filters webhooks post uid d st).nextId = st.nextId
      ∧ ∀ r, G r = r ∨ (G r = { r with forwarded := true } ∧ d.id = r.id
          ∧ should_monitor_sender filters uid d.sender = true) := by
  by_cases hmon : should_monitor_sender filters uid d.sender = false
  · have he : forward_email_to_webhook filters webhooks post uid d st = st := by
      unfold forward_email_to_webhook
      rw [if_pos hmon]
    rw [he]
    exact ⟨id, (List.map_id _).symm, rfl, fun r => Or.inl rfl⟩
  · have hmon' : should_monitor_sender filters uid d.sender = true := by
      simpa using hmon
    cases hw : active_webhook webhooks uid with
    | none =>
      have he : forward_email_to_webhook filters webhooks post uid d st = st := by
        unfold forward_email_to_webhook
        rw [if_neg hmon, hw]
      rw [he]
      exact ⟨id, (List.map_id _).symm, rfl, fun r => Or.inl rfl⟩
    | some w =>
      by_cases hp : post w.url = some 204
      · have he : forward_email_to_webhook filters webhooks post uid d st
            = setForwarded st d.id := by
          unfold forward_email_to_webhook
          rw [if_neg hmon, hw]
          show (if post w.url = some 204 then setForwarded st d.id else st)
            = setForwarded st d.id
          rw [if_pos hp]
        rw [he]
        refine ⟨fun r => if r.id == d.id then { r with forwarded := true } else r,
          rfl, rfl, ?_⟩
        intro r
        by_cases hid : r.id = d.id
        · right
          refine ⟨by simp [hid], hid.symm, hmon'⟩
        · left
          simp [hid]
      · have he : forward_email_to_webhook filters webhooks post uid d st = st := by
          unfold forward_email_to_webhook
          rw [if_neg hmon, hw]
          show (if post w.url = some 204 then setForwarded st d.id else st) = st
          rw [if_neg hp]
        rw [he]
        exact ⟨id, (List.map_id _).symm, rfl, fun r => Or.inl rfl⟩

/-- Forwarding a whole batch of records is likewise an in-place rewrite, with
a flag only ever set for some forwarded record's row id that the sender
filter admitted. -/
theorem forwardAll_shape (filters : List FilterRow) (webhooks : List WebhookRow)
    (post : PostWorld) (uid : Nat) (ds : List EmailData) (st : EmailStore) :
    ∃ G : EmailRow → EmailRow,
      (forwardAll filters webhooks post uid ds st).rows = st.rows.map G
      ∧ (forwardAll filters webhooks post uid ds st).nextId = st.nextId
      ∧ ∀ r, G r = r ∨ (G r = { r with forwarded := true } ∧ ∃ d ∈ ds, d.id = r.id
          ∧ should_monitor_sender filters uid d.sender = true) := by
  induction ds generalizing st with
  | nil => exact ⟨id, (List.map_id _).symm, rfl, fun r => Or.inl rfl⟩
  | cons d rest ih =>
    obtain ⟨g, hg_rows, hg_next, hg⟩ := forward_shape filters webhooks post uid d st
    obtain ⟨G, hG_rows, hG_next, hG⟩ :=
      ih (forward_email_to_webhook filters webhooks post uid d st)
    have hfold : forwardAll filters webhooks post uid (d :: rest) st
        = forwardAll filters webhooks post uid rest
            (forward_email_to_webhook filters webhooks post uid d st) := by
      simp [forwardAll]
    refine ⟨fun r => G (g r), ?_, ?_, ?_⟩
    · rw [hfold, hG_rows, hg_rows, List.map_map]
      rfl
    · rw [hfold, hG_next, hg_next]
    · intro r
      show G (g r) = r ∨ (G (g r) = { r with forwarded := true } ∧ ∃ d2 ∈ d :: rest,
        d2.id = r.id ∧ should_monitor_sender filters uid d2.sender = true)
      rcases hg r with h1 | ⟨h1, hid1, hmon1⟩
      · rw [h1]
        rcases hG r with h2 | ⟨h2, d2, hd2, hid2, hmon2⟩
        · exact Or.inl h2
        · exact Or.inr ⟨h2, d2, List.mem_cons_of_mem d hd2, hid2, hmon2⟩
      · rw [h1]
        rcases hG { r with forwarded := true } with h2 | ⟨h2, d2, hd2, hid2, hmon2⟩
        · exact Or.inr ⟨h2, d, List.mem_cons_self d rest, hid1, hmon1⟩
        · exact Or.inr ⟨h2, d, List.mem_cons_self d rest, hid1, hmon1⟩

/-- Filtering a mapped list whose map preserves the predicate keeps the
filter's length. -/
theorem length_filter_map_pres (p : EmailRow → Bool) (G : EmailRow → EmailRow)
    (hp : ∀ r, p (G r) = p r) (l : List EmailRow) :
    ((l.map G).filter p).length = (l.filter p).length := by
  induction l with
  | nil => rfl
  | cons x xs ih =>
    rw [List.map_cons, List.filter_cons, List.filter_cons, hp x]
    cases p x <;> simp [ih]

/-- The rewrite map of `forwardAll` preserves every row's key fields. -/
theorem forwardAll_G_sameKey (G : EmailRow → EmailRow) (ds : List EmailData)
    (filters : List FilterRow) (uid : Nat)
    (hG : ∀ r, G r = r ∨ (G r = { r with forwarded := true } ∧ ∃ d ∈ ds, d.id = r.id
      ∧ should_monitor_sender filters uid d.sender = true))
    (aid : Nat) (mid : String) (r : EmailRow) :
    sameKey aid mid (G r) = sameKey aid mid r := by
  rcases hG r with h | ⟨h, _⟩
  · rw [h]
  · rw [h]
    rfl

/-- The rewrite map of `forwardAll` preserves every row's id. -/
theorem forwardAll_G_id (G : EmailRow → EmailRow) (ds : List EmailData)
    (filters : List FilterRow) (uid : Nat)
    (hG : ∀ r, G r = r ∨ (G r = { r with forwarded := true } ∧ ∃ d ∈ ds, d.id = r.id
      ∧ should_monitor_sender filters uid d.sender = true))
    (r : EmailRow) : (G r).id = r.id := by
  rcases hG r with h | ⟨h, _⟩ <;> rw [h]

/-- Forwarding never changes a key's row count. -/
theorem forwardAll_count (filters : List FilterRow) (webhooks : List WebhookRow)
    (post : PostWorld) (uid : Nat) (ds : List EmailData) (st : EmailStore)
    (aid : Nat) (mid : String) :
    countKey (forwardAll filters webhooks post uid ds st) aid mid
      = countKey st aid mid := by
  obtain ⟨G, hrows, _, hG⟩ := forwardAll_shape filters webhooks post uid ds st
  unfold countKey
  rw [hrows]
  exact length_filter_map_pres (sameKey aid mid) G
    (forwardAll_G_sameKey G ds filters uid hG aid mid) st.rows

/-- Forwarding keeps the store well-formed. -/
theorem forwardAll_wf (filters : List FilterRow) (webhooks : List WebhookRow)
    (post : PostWorld) (uid : Nat) (ds : List EmailData) (st : EmailStore)
    (hwf : StoreWf st) : StoreWf (forwardAll filters webhooks post uid ds st) := by
  obtain ⟨G, hrows, hnext, hG⟩ := forwardAll_shape filters webhooks post uid ds st
  have hid := forwardAll_G_id G ds filters uid hG
  have hids : ((forwardAll filters webhooks post uid ds st).rows.map (fun r => r.id))
      = st.rows.map (fun r => r.id) := by
    rw [hrows, List.map_map]
    exact List.map_congr_left (fun r _ => hid r)
  constructor
  · intro r hr
    rw [hrows] at hr
    obtain ⟨r0, hr0, hr0G⟩ := List.mem_map.mp hr
    rw [← hr0G, hnext, hid r0]
    exact hwf.1 r0 hr0
  · rw [hids]
    exact hwf.2

/-- Every key-carrying row after forwarding is the image of a key-carrying
row before it: the same row, or the same row with its flag set — the latter
only for a forwarded record with that row's id that the filter admitted. -/
theorem forwardAll_key_rows (filters : List FilterRow) (webhooks : List WebhookRow)
    (post : PostWorld) (uid : Nat) (ds : List EmailData) (st : EmailStore)
    (aid : Nat) (mid : String) :
    ∀ q ∈ (forwardAll filters webhooks post uid ds st).rows,
      sameKey aid mid q = true →
      ∃ r0 ∈ st.rows, sameKey aid mid r0 = true
        ∧ (q = r0 ∨ (q = { r0 with forwarded := true } ∧ ∃ d ∈ ds, d.id = r0.id
            ∧ should_monitor_sender filters uid d.sender = true)) := by
  obtain ⟨G, hrows, _, hG⟩ := forwardAll_shape filters webhooks post uid ds st
  intro q hq hkey
  rw [hrows] at hq
  obtain ⟨r0, hr0, hr0G⟩ := List.mem_map.mp hq
  have hkey0 : sameKey aid mid r0 = true := by
    rw [← forwardAll_G_sameKey G ds filters uid hG aid mid r0, hr0G]
    exact hkey
  rcases hG r0 with h | ⟨h, d, hd, hdid, hmon⟩
  · exact ⟨r0, hr0, hkey0, Or.inl (by rw [← hr0G, h])⟩
  · exact ⟨r0, hr0, hkey0, Or.inr ⟨by rw [← hr0G, h], d, hd, hdid, hmon⟩⟩

/-- In a store holding exactly one row with a key, any two key-carrying rows
coincide. -/
theorem key_row_unique (st : EmailStore) (aid : Nat) (mid : String)
    (hc : countKey st aid mid = 1) (r q : EmailRow)
    (hr : r ∈ st.rows) (hkr : sameKey aid mid r = true)
    (hq : q ∈ st.rows) (hkq : sameKey aid mid q = true) : q = r := by
  unfold countKey at hc
  obtain ⟨x, hx⟩ := List.length_eq_one.mp hc
  have hrx : r = x := by
    have h1 : r ∈ st.rows.filter (sameKey aid mid) := List.mem_filter.mpr ⟨hr, hkr⟩
    rw [hx] at h1
    exact List.mem_singleton.mp h1
  have hqx : q = x := by
    have h1 : q ∈ st.rows.filter (sameKey aid mid) := List.mem_filter.mpr ⟨hq, hkq⟩
    rw [hx] at h1
    exact List.mem_singleton.mp h1
  rw [hqx, hrx]

/-- Forwarding over a fetch's records keeps a key's single stored row
unforwarded whenever no admitted record targets that row's id. -/
theorem cycle_key_flag (filters : List FilterRow) (webhooks : List WebhookRow)
    (post : PostWorld) (uid : Nat) (ds : List EmailData) (stF : EmailStore)
    (aid : Nat) (mid : String)
    (hcount : countKey stF aid mid = 1)
    (hflag : ∀ r ∈ stF.rows, sameKey aid mid r = true → r.forwarded = false)
    (hnotouch : ∀ d ∈ ds, ∀ r0 ∈ stF.rows, sameKey aid mid r0 = true → d.id = r0.id →
      should_monitor_sender filters uid d.sender = true → False) :
    countKey (forwardAll filters webhooks post uid ds stF) aid mid = 1
    ∧ ∀ q ∈ (forwardAll filters webhooks post uid ds stF).rows,
        sameKey aid mid q = true → q.forwarded = false := by
  constructor
  · rw [forwardAll_count]
    exact hcount
  · intro q hq hkey
    obtain ⟨r0, hr0, hkey0, hcase⟩ :=
      forwardAll_key_rows filters webhooks post uid ds stF aid mid q hq hkey
    rcases hcase with h | ⟨h, d, hd, hdid, hmon⟩
    · rw [h]
      exact hflag r0 hr0 hkey0
    · exact absurd hmon (fun hmm => hnotouch d hd r0 hr0 hkey0 hdid hmm)

/-- One polling cycle keeps a key's invariant — store well-formed, exactly one
row with the key, its flag unset — whatever the cycle's filter set, webhook
configuration and sink behavior: dedup blocks re-ingestion of the present key
and the fresh records' row ids can never name the old key row; moreover no
record handed to the sink during the cycle names a row carrying the key. -/
theorem cycle_preserves_key_invariant (filters : List FilterRow)
    (webhooks : List WebhookRow) (post : PostWorld) (aid uid : Nat) (ae : String)
    (mailbox : List MailMsg) (st : EmailStore) (mid : String)
    (hwf : StoreWf st) (hcount : countKey st aid mid = 1)
    (hflag : ∀ q ∈ st.rows, sameKey aid mid q = true → q.forwarded = false) :
    StoreWf (poll_cycle filters webhooks post aid uid ae mailbox st).1
    ∧ countKey (poll_cycle filters webhooks post aid uid ae mailbox st).1 aid mid = 1
    ∧ (∀ q ∈ (poll_cycle filters webhooks post aid uid ae mailbox st).1.rows,
        sameKey aid mid q = true → q.forwarded = false)
    ∧ (∀ d ∈ (poll_cycle filters webhooks post aid uid ae mailbox st).2,
        ∀ r ∈ (poll_cycle filters webhooks post aid uid ae mailbox st).1.rows,
          r.id = d.id → sameKey aid mid r = false) := by
  set msgs := lastTen mailbox with hmsgs
  set ds2 := (fetchFold aid uid ae msgs st).1 with hds2
  set stB := (fetchFold aid uid ae msgs st).2 with hstB
  have hwfB : StoreWf stB := fetchFold_wf aid uid ae msgs st hwf
  have hpres : st.rows.any (sameKey aid mid) = true :=
    (countKey_pos_iff_any st aid mid).mp (by omega)
  have hcountB : countKey stB aid mid = 1 := by
    have hle : countKey stB aid mid ≤ 1 :=
      fetchFold_count_le_one aid uid ae msgs st mid (by omega)
    have hpos : 0 < countKey stB aid mid := (countKey_pos_iff_any stB aid mid).mpr
      (fetchFold_key_mono aid uid ae msgs st aid mid hpres)
    omega
  obtain ⟨rstar, hrstar⟩ := List.exists_mem_of_ne_nil (st.rows.filter (sameKey aid mid))
    (by
      intro hnil
      have : countKey st aid mid = 0 := by
        unfold countKey
        rw [hnil]
        rfl
      omega)
  obtain ⟨hrstar_mem, hrstar_key⟩ := List.mem_filter.mp hrstar
  have hrstar_id : rstar.id < st.nextId := hwf.1 rstar hrstar_mem
  obtain ⟨newB, hnewB, _⟩ := fetchFold_rows aid uid ae msgs st
  have hrstarB : rstar ∈ stB.rows := by
    rw [hstB, hnewB]
    exact List.mem_append_left _ hrstar_mem
  have hkeyB_unique : ∀ q ∈ stB.rows, sameKey aid mid q = true → q = rstar :=
    fun q hq hk => key_row_unique stB aid mid hcountB rstar q hrstarB hrstar_key hq hk
  have hflagB : ∀ q ∈ stB.rows, sameKey aid mid q = true → q.forwarded = false := by
    intro q hq hk
    rw [hkeyB_unique q hq hk]
    exact hflag rstar hrstar_mem hrstar_key
  have hnotouch2 : ∀ d ∈ ds2, ∀ r0 ∈ stB.rows, sameKey aid mid r0 = true → d.id = r0.id →
      should_monitor_sender filters uid d.sender = true → False := by
    intro d hd r0 hr0 hkey0 hdid _
    have hdidge : st.nextId ≤ d.id := fetchFold_ds_ids aid uid ae msgs st d hd
    have hr0star : r0 = rstar := hkeyB_unique r0 hr0 hkey0
    rw [hdid, hr0star] at hdidge
    omega
  obtain ⟨hcount2, hflag2⟩ := cycle_key_flag filters webhooks post uid ds2 stB aid mid
    hcountB hflagB hnotouch2
  have hpc2 : (poll_cycle filters webhooks post aid uid ae mailbox st).1
      = forwardAll filters webhooks post uid ds2 stB := rfl
  have hpd2 : (poll_cycle filters webhooks post aid uid ae mailbox st).2
      = delivered_messages filters webhooks uid ds2 := rfl
  have hdel2 : ∀ d ∈ delivered_messages filters webhooks uid ds2,
      ∀ r ∈ (forwardAll filters webhooks post uid ds2 stB).rows,
        r.id = d.id → sameKey aid mid r = false := by
    intro d hd r hr hrid
    obtain ⟨hdmem, _⟩ := List.mem_filter.mp hd
    by_contra hkey
    have hkey' : sameKey aid mid r = true := by
      cases h : sameKey aid mid r
      · exact absurd h hkey
      · rfl
    obtain ⟨r0, hr0, hkey0, hcase⟩ :=
      forwardAll_key_rows filters webhooks post uid ds2 stB aid mid r hr hkey'
    have hid0 : r.id = r0.id := by
      rcases hcase with h | ⟨h, _⟩
      · rw [h]
      · rw [h]
    have hdidge : st.nextId ≤ d.id := fetchFold_ds_ids aid uid ae msgs st d hdmem
    have hr0star : r0 = rstar := hkeyB_unique r0 hr0 hkey0
    rw [← hrid, hid0, hr0star] at hdidge
    omega
  rw [hpc2, hpd2]
  exact ⟨forwardAll_wf filters webhooks post uid ds2 stB hwfB, hcount2, hflag2, hdel2⟩

/-- Repeated later polling cycles over the same mailbox, each with its own
filter set, webhook configuration and sink behavior. -/
def poll_cycles (ps : List (List FilterRow × List WebhookRow × PostWorld))
    (aid uid : Nat) (ae : String) (mailbox : List MailMsg) (st : EmailStore) : EmailStore :=
  ps.foldl (fun s p => (poll_cycle p.1 p.2.1 p.2.2 aid uid ae mailbox s).1) st

/-- The key invariant survives any number of later cycles. -/
theorem poll_cycles_invariant (ps : List (List FilterRow × List WebhookRow × PostWorld))
    (aid uid : Nat) (ae : String) (mailbox : List MailMsg) (st : EmailStore) (mid : String)
    (hwf : StoreWf st) (hcount : countKey st aid mid = 1)
    (hflag : ∀ q ∈ st.rows, sameKey aid mid q = true → q.forwarded = false) :
    StoreWf (poll_cycles ps aid uid ae mailbox st)
    ∧ countKey (poll_cycles ps aid uid ae mailbox st) aid mid = 1
    ∧ (∀ q ∈ (poll_cycles ps aid uid ae mailbox st).rows,
        sameKey aid mid q = true → q.forwarded = false) := by
  induction ps generalizing st with
  | nil => exact ⟨hwf, hcount, hflag⟩
  | cons p rest ih =>
    obtain ⟨hwf1, hcount1, hflag1, _⟩ :=
      cycle_preserves_key_invariant p.1 p.2.1 p.2.2 aid uid ae mailbox st mid
        hwf hcount hflag
    have hfold : poll_cycles (p :: rest) aid uid ae mailbox st
        = poll_cycles rest aid uid ae mailbox
            (poll_cycle p.1 p.2.1 p.2.2 aid uid ae mailbox st).1 := by
      simp [poll_cycles]
    rw [hfold]
    exact ih _ hwf1 hcount1 hflag1

/-- Claim C10: a message whose sender the owner's filter rejects at fetch time
is nevertheless stored (insertion precedes the filter check): after the cycle
it sits in the store exactly once with its `forwarded` flag unset, and no
record handed to the sink names its row. After any number of later cycles —
each with arbitrary filter set, webhook configuration and sink behavior —
dedup still prevents its re-ingestion, so it still sits in the store exactly
once with its flag unset, and whatever cycle comes next again hands the sink
no record naming a row with its key: the message is never delivered. -/
theorem C10_stored_never_delivered (filters1 : List FilterRow)
    (webhooks1 : List WebhookRow) (post1 : PostWorld)
    (aid uid : Nat) (ae : String) (mailbox : List MailMsg) (st0 : EmailStore)
    (m : MailMsg)
    (hwf : StoreWf st0)
    (hm : m ∈ lastTen mailbox)
    (huniq : ∀ m2 ∈ lastTen mailbox, m2.messageId = m.messageId → m2 = m)
    (hnew : st0.rows.any (sameKey aid m.messageId) = false)
    (hdis : should_monitor_sender filters1 uid m.sender = false) :
    (countKey (poll_cycle filters1 webhooks1 post1 aid uid ae mailbox st0).1
        aid m.messageId = 1
      ∧ (∀ q ∈ (poll_cycle filters1 webhooks1 post1 aid uid ae mailbox st0).1.rows,
          sameKey aid m.messageId q = true → q.forwarded = false)
      ∧ (∀ d ∈ (poll_cycle filters1 webhooks1 post1 aid uid ae mailbox st0).2,
          ∀ r ∈ (poll_cycle filters1 webhooks1 post1 aid uid ae mailbox st0).1.rows,
            r.id = d.id → sameKey aid m.messageId r = false))
    ∧ ∀ ps : List (List FilterRow × List WebhookRow × PostWorld),
        (countKey (poll_cycles ps aid uid ae mailbox
            (poll_cycle filters1 webhooks1 post1 aid uid ae mailbox st0).1)
          aid m.messageId = 1
        ∧ (∀ q ∈ (poll_cycles ps aid uid ae mailbox
            (poll_cycle filters1 webhooks1 post1 aid uid ae mailbox st0).1).rows,
            sameKey aid m.messageId q = true → q.forwarded = false)
        ∧ ∀ filters2 webhooks2 post2,
            ∀ d ∈ (poll_cycle filters2 webhooks2 post2 aid uid ae mailbox
                (poll_cycles ps aid uid ae mailbox
                  (poll_cycle filters1 webhooks1 post1 aid uid ae mailbox st0).1)).2,
              ∀ r ∈ (poll_cycle filters2 webhooks2 post2 aid uid ae mailbox
                (poll_cycles ps aid uid ae mailbox
                  (poll_cycle filters1 webhooks1 post1 aid uid ae mailbox st0).1)).1.rows,
                r.id = d.id → sameKey aid m.messageId r = false) := by
  set msgs := lastTen mailbox with hmsgs
  set mid := m.messageId with hmid
  set ds1 := (fetchFold aid uid ae msgs st0).1 with hds1
  set stA := (fetchFold aid uid ae msgs st0).2 with hstA
  have hwfA : StoreWf stA := fetchFold_wf aid uid ae msgs st0 hwf
  have hpresA : stA.rows.any (sameKey aid mid) = true :=
    fetchFold_key_present aid uid ae msgs st0 m hm
  have hcountA : countKey stA aid mid = 1 := by
    have hle : countKey stA aid mid ≤ 1 :=
      fetchFold_count_le_one aid uid ae msgs st0 mid
        (by rw [countKey_zero_of_any_false st0 aid mid hnew]; exact Nat.zero_le 1)
    have hpos : 0 < countKey stA aid mid := (countKey_pos_iff_any stA aid mid).mpr hpresA
    omega
  have hmsg1 : ∀ m2 ∈ msgs, m2.messageId = mid → m2.sender = m.sender := by
    intro m2 h2 hid2
    rw [huniq m2 h2 hid2]
  have hkeyA : ∀ q ∈ stA.rows, sameKey aid mid q = true →
      q.sender = m.sender ∧ q.forwarded = false := by
    intro q hq hkey
    rcases fetchFold_key_rows aid uid ae msgs st0 mid m.sender hmsg1 q hq hkey with h | h
    · exact absurd (List.any_eq_true.mpr ⟨q, h, hkey⟩) (by rw [hnew]; exact Bool.false_ne_true)
    · exact h
  have hdsrow1 := fetchFold_ds_row aid uid ae msgs st0 hwf
  have hpc1 : (poll_cycle filters1 webhooks1 post1 aid uid ae mailbox st0).1
      = forwardAll filters1 webhooks1 post1 uid ds1 stA := rfl
  have hpd1 : (poll_cycle filters1 webhooks1 post1 aid uid ae mailbox st0).2
      = delivered_messages filters1 webhooks1 uid ds1 := rfl
  have hnotouch1 : ∀ d ∈ ds1, ∀ r0 ∈ stA.rows, sameKey aid mid r0 = true → d.id = r0.id →
      should_monitor_sender filters1 uid d.sender = true → False := by
    intro d hd r0 hr0 hkey0 hdid hmon
    have hsend : r0.sender = d.sender := hdsrow1 d hd r0 hr0 hdid.symm
    have hsm : r0.sender = m.sender := (hkeyA r0 hr0 hkey0).1
    rw [← hsend, hsm, hdis] at hmon
    cases hmon
  obtain ⟨hcount1, hflag1⟩ := cycle_key_flag filters1 webhooks1 post1 uid ds1 stA aid mid
    hcountA (fun r hr hk => (hkeyA r hr hk).2) hnotouch1
  set st1 := forwardAll filters1 webhooks1 post1 uid ds1 stA with hst1
  have hwf1 : StoreWf st1 := forwardAll_wf filters1 webhooks1 post1 uid ds1 stA hwfA
  have hdel1 : ∀ d ∈ delivered_messages filters1 webhooks1 uid ds1,
      ∀ r ∈ st1.rows, r.id = d.id → sameKey aid mid r = false := by
    intro d hd r hr hrid
    obtain ⟨hdmem, hdcond⟩ := List.mem_filter.mp hd
    have hdmon : should_monitor_sender filters1 uid d.sender = true := by
      simp only [Bool.and_eq_true] at hdcond
      exact hdcond.1
    by_contra hkey
    have hkey' : sameKey aid mid r = true := by
      cases h : sameKey aid mid r
      · exact absurd h hkey
      · rfl
    obtain ⟨r0, hr0, hkey0, hcase⟩ :=
      forwardAll_key_rows filters1 webhooks1 post1 uid ds1 stA aid mid r hr hkey'
    have hid0 : r.id = r0.id := by
      rcases hcase with h | ⟨h, _⟩
      · rw [h]
      · rw [h]
    exact hnotouch1 d hdmem r0 hr0 hkey0 (by rw [← hrid, hid0]) hdmon
  rw [hpc1, hpd1]
  refine ⟨⟨hcount1, hflag1, hdel1⟩, ?_⟩
  intro ps
  obtain ⟨hwfP, hcountP, hflagP⟩ :=
    poll_cycles_invariant ps aid uid ae mailbox st1 mid hwf1 hcount1 hflag1
  refine ⟨hcountP, hflagP, ?_⟩
  intro filters2 webhooks2 post2
  exact (cycle_preserves_key_invariant filters2 webhooks2 post2 aid uid ae mailbox
    (poll_cycles ps aid uid ae mailbox st1) mid hwfP hcountP hflagP).2.2.2

/-- Witness for `C10_stored_never_delivered`: a message from a filtered-out
sender, fetched into an empty store, is stored once with its flag unset, no
sink record names it, and this persists across any number of later cycles. -/
theorem C10_stored_never_delivered_witness :
    (countKey (poll_cycle [⟨5, "good@x.com", true⟩] [⟨5, "https://hook", true⟩]
        (fun _ => some 204) 9 5 "acct@x.com" [⟨"M1", "hello", "spam@bad.com", "Spam"⟩]
        ⟨[], 0⟩).1 9 (⟨"M1", "hello", "spam@bad.com", "Spam"⟩ : MailMsg).messageId = 1
      ∧ (∀ q ∈ (poll_cycle [⟨5, "good@x.com", true⟩] [⟨5, "https://hook", true⟩]
          (fun _ => some 204) 9 5 "acct@x.com" [⟨"M1", "hello", "spam@bad.com", "Spam"⟩]
          ⟨[], 0⟩).1.rows,
          sameKey 9 (⟨"M1", "hello", "spam@bad.com", "Spam"⟩ : MailMsg).messageId q = true →
            q.forwarded = false)
      ∧ (∀ d ∈ (poll_cycle [⟨5, "good@x.com", true⟩] [⟨5, "https://hook", true⟩]
          (fun _ => some 204) 9 5 "acct@x.com" [⟨"M1", "hello", "spam@bad.com", "Spam"⟩]
          ⟨[], 0⟩).2,
          ∀ r ∈ (poll_cycle [⟨5, "good@x.com", true⟩] [⟨5, "https://hook", true⟩]
            (fun _ => some 204) 9 5 "acct@x.com" [⟨"M1", "hello", "spam@bad.com", "Spam"⟩]
            ⟨[], 0⟩).1.rows,
            r.id = d.id →
              sameKey 9 (⟨"M1", "hello", "spam@bad.com", "Spam"⟩ : MailMsg).messageId r
                = false))
    ∧ ∀ ps : List (List FilterRow × List WebhookRow × PostWorld),
        (countKey (poll_cycles ps 9 5 "acct@x.com"
            [⟨"M1", "hello", "spam@bad.com", "Spam"⟩]
            (poll_cycle [⟨5, "good@x.com", true⟩] [⟨5, "https://hook", true⟩]
              (fun _ => some 204) 9 5 "acct@x.com"
              [⟨"M1", "hello", "spam@bad.com", "Spam"⟩] ⟨[], 0⟩).1)
          9 (⟨"M1", "hello", "spam@bad.com", "Spam"⟩ : MailMsg).messageId = 1
        ∧ (∀ q ∈ (poll_cycles ps 9 5 "acct@x.com"
            [⟨"M1", "hello", "spam@bad.com", "Spam"⟩]
            (poll_cycle [⟨5, "good@x.com", true⟩] [⟨5, "https://hook", true⟩]
              (fun _ => some 204) 9 5 "acct@x.com"
              [⟨"M1", "hello", "spam@bad.com", "Spam"⟩] ⟨[], 0⟩).1).rows,
            sameKey 9 (⟨"M1", "hello", "spam@bad.com", "Spam"⟩ : MailMsg).messageId q
              = true → q.forwarded = false)
        ∧ ∀ filters2 webhooks2 post2,
            ∀ d ∈ (poll_cycle filters2 webhooks2 post2 9 5 "acct@x.com"
                [⟨"M1", "hello", "spam@bad.com", "Spam"⟩]
                (poll_cycles ps 9 5 "acct@x.com"
                  [⟨"M1", "hello", "spam@bad.com", "Spam"⟩]
                  (poll_cycle [⟨5, "good@x.com", true⟩] [⟨5, "https://hook", true⟩]
                    (fun _ => some 204) 9 5 "acct@x.com"
                    [⟨"M1", "hello", "spam@bad.com", "Spam"⟩] ⟨[], 0⟩).1)).2,
              ∀ r ∈ (poll_cycle filters2 webhooks2 post2 9 5 "acct@x.com"
                [⟨"M1", "hello", "spam@bad.com", "Spam"⟩]
                (poll_cycles ps 9 5 "acct@x.com"
                  [⟨"M1", "hello", "spam@bad.com", "Spam"⟩]
                  (poll_cycle [⟨5, "good@x.com", true⟩] [⟨5, "https://hook", true⟩]
                    (fun _ => some 204) 9 5 "acct@x.com"
                    [⟨"M1", "hello", "spam@bad.com", "Spam"⟩] ⟨[], 0⟩).1)).1.rows,
                r.id = d.id →
                  sameKey 9 (⟨"M1", "hello", "spam@bad.com", "Spam"⟩ : MailMsg).messageId r
                    = false) :=
  C10_stored_never_delivered [⟨5, "good@x.com", true⟩] [⟨5, "https://hook", true⟩]
    (fun _ => some 204) 9 5 "acct@x.com"
    [⟨"M1", "hello", "spam@bad.com", "Spam"⟩] ⟨[], 0⟩
    ⟨"M1", "hello", "spam@bad.com", "Spam"⟩
    ⟨fun r hr => absurd hr (List.not_mem_nil r), List.nodup_nil⟩
    (by decide) (by decide) (by decide) (by decide)
